import Mathlib

/-!
# Conway's Game of Life: the board update and the setup-phase input handling

A shallow embedding of `life_functions.c` and `game.c`.

Modelling conventions.

* A boolean matrix obtained from `create_matrix` is a function `Nat → Nat → Bool`;
  `M i j` is the C expression `M[i][j]`.  Only the cells with `i < rows` and
  `j < cols` belong to the allocation, the values at other indices carry no meaning.
* Memory that C leaves indeterminate is an explicit argument: the contents of a
  fresh `malloc` block (`heap`) and the start value of an uninitialised local
  (`count0` in `game_update`).
* `size_t` arithmetic is written with an explicit wrap where it can wrap
  (`move_cursor`, the change counter of `game_update`, `n_rows - 1` and `n_cols - 1`
  in the toroidal padding).  The sums `n_rows + 2` and `n_cols + 2` are `Nat` sums:
  no board that can be allocated has a size near `2 ^ 64`.
* A loop whose counter is an `int` (`create_matrix`, the padding and copy loops of
  `game_update`) is an `intLoop`: it makes the passes that an `int` counter can reach
  and stops after the pass with `i = INT_MAX`, where the increment overflows.  A row
  of a matrix whose row pointer `create_matrix` did not set cannot be reached; the
  model leaves its cells at the heap contents.  `game_update_defined` says when no
  counter overflows and every access stays inside its matrix.
* The mutex and the condition variables carry no data and are left out; each
  function is the sequential effect of one call.  The two threads of the run phase
  are a transition system whose steps are the loop tests made without the mutex and
  the critical sections, each critical section guarded by the negation of its wait
  condition; a timed wait that expires only evaluates the condition again.
-/

namespace Life

/-! ## Matrices and loops -/

/-- A boolean matrix: `M i j` is the cell `M[i][j]`. -/
abbrev Grid := Nat → Nat → Bool

/-- The assignment `M[i][j] = v`. -/
def Grid.write (M : Grid) (i j : Nat) (v : Bool) : Grid :=
  fun a b => if a = i ∧ b = j then v else M a b

/-- Runs `body 0`, then `body 1`, up to `body (n - 1)`. -/
def loopN {σ : Type} : Nat → (Nat → σ → σ) → σ → σ
  | 0, _, s => s
  | n + 1, body, s => body n (loopN n body s)

/-- The C loop `for (i = lo; i < hi; i++) body`. -/
def forLoop {σ : Type} (lo hi : Nat) (body : Nat → σ → σ) (s : σ) : σ :=
  loopN (hi - lo) (fun k => body (lo + k)) s

/-- The call `memcpy(&dst[di][dj], &src[si][sj], n * sizeof(bool))` for a run of `n`
cells that stays inside one row of each matrix. -/
def memcpy (dst : Grid) (di dj : Nat) (src : Grid) (si sj : Nat) (n : Nat) : Grid :=
  loopN n (fun k d => d.write di (dj + k) (src si (sj + k))) dst

/-- The call `memset(M[0], 0, n * sizeof(bool))`.  The data block is contiguous and
`create_matrix` lets row pointer `i` point at offset `i * cols`, so byte `k` of the
block is the cell `M[k / cols][k % cols]`. -/
def memset (M : Grid) (cols n : Nat) : Grid :=
  loopN n (fun k A => A.write (k / cols) (k % cols) false) M

/-! ## Machine integers -/

/-- Number of values of a `size_t` (64 bit). -/
def SIZE_WIDTH : Nat := 2 ^ 64

/-- Conversion of a `signed` value to `size_t`. -/
def to_size_t (t : Int) : Nat := (t % (SIZE_WIDTH : Int)).toNat

/-- Conversion of a `size_t` value to the `int` that `game_update` returns
(32 bit, two's complement). -/
def to_int (n : Nat) : Int :=
  if n % 2 ^ 32 < 2 ^ 31 then ((n % 2 ^ 32 : Nat) : Int) else ((n % 2 ^ 32 : Nat) : Int) - 2 ^ 32

/-- The `size_t` value `n - 1`: at `n = 0` it wraps to `SIZE_MAX`. -/
def size_pred (n : Nat) : Nat :=
  if n = 0 then SIZE_WIDTH - 1 else n - 1

/-- The largest value of an `int` (32 bit). -/
def INT_MAX : Nat := 2 ^ 31 - 1

/-- The C loop `for (int i = lo; i < hi; i++) body` with a `size_t` bound `hi`.  The
comparison converts the counter to `size_t`.  The pass with `i = INT_MAX` is the last
one an `int` counter can make: the increment after it overflows (undefined in ISO C;
on a two's complement machine it gives `INT_MIN`, which as a `size_t` is above the
bound and ends the loop).  The model makes the passes with `i ≤ INT_MAX` and stops. -/
def intLoop {σ : Type} (lo hi : Nat) (body : Nat → σ → σ) (s : σ) : σ :=
  forLoop lo (min hi (INT_MAX + 1)) body s

/-- The function `create_matrix`.  The data block comes from `malloc`, its contents are
whatever the heap held (`heap`).  Line 63 sets `row_ptrs[0]`, the `int` loop of line 65
sets `row_ptrs[i]` for the `i` it reaches.  The result is the contents of the block
and the number of rows whose row pointer is set. -/
def create_matrix (rows _cols : Nat) (heap : Grid) : Grid × Nat :=
  (heap, intLoop 1 rows (fun i _ => i + 1) 1)

/-! ## The shared state -/

/-- The struct `game_state` without its mutex and condition variables. -/
structure game_state where
  update_rate : Nat
  n_rows : Nat
  n_cols : Nat
  maxiters : Nat
  toroidal : Bool
  xpos : Nat
  ypos : Nat
  last_command : Nat
  starty : Nat
  spawns : Nat
  updates : Nat
  drawn : Nat
  inp_over : Bool
  finished : Bool
  Mv : Grid

/-- The values of `enum input_enum`. -/
def EMPTY : Nat := 0
def GO_LEFT : Nat := 1
def GO_RIGHT : Nat := 2
def GO_UP : Nat := 3
def GO_DOWN : Nat := 4
def RESET_POS : Nat := 5
def INC_FRAMES : Nat := 6
def DEC_FRAMES : Nat := 7
def START_GAME : Nat := 8
def SPAWN_LIFE : Nat := 9
def TOGGLE_TOROIDAL : Nat := 10

/-- The function `init_game`. -/
def init_game (rows cols maxiters : Nat) (toroidal : Bool) (heap : Grid) : game_state :=
  { update_rate := 10
    n_rows := rows
    n_cols := cols
    maxiters := maxiters
    toroidal := toroidal
    xpos := 0
    ypos := 0
    last_command := 0
    starty := 0
    spawns := 0
    updates := 0
    drawn := 0
    inp_over := false
    finished := false
    Mv := memset (create_matrix rows cols heap).1 cols (rows * cols) }

/-! ## The update engine (`life_functions.c`) -/

/-- The function `test_life`. -/
def test_life (current : Bool) (nbrs : Nat) : Bool :=
  nbrs == 3 || (current && nbrs == 2)

/-- The neighbour sum of line 163, read from the padded matrix at `[i][j]`. -/
def nbrs_at (tempgrid : Grid) (i j : Nat) : Nat :=
  (tempgrid (i - 1) (j - 1)).toNat + (tempgrid (i - 1) j).toNat
    + (tempgrid (i - 1) (j + 1)).toNat + (tempgrid i (j - 1)).toNat
    + (tempgrid i (j + 1)).toNat + (tempgrid (i + 1) (j - 1)).toNat
    + (tempgrid (i + 1) j).toNat + (tempgrid (i + 1) (j + 1)).toNat

/-- The value that the fill loop writes for the position `[i][j]` of the padded copy
(lines 163-164). -/
def next_cell (tempgrid : Grid) (i j : Nat) : Bool :=
  test_life (tempgrid i j) (nbrs_at tempgrid i j)

/-- Lines 120-135 of `game_update`: the padding of a toroidal board.  `n_rows - 1` and
`n_cols - 1` are `size_t` differences; the loop of line 126 counts with an `int`. -/
def pad_toroidal (G : game_state) (tempgrid : Grid) : Grid :=
  let M := G.Mv
  let t1 := memcpy tempgrid 0 1 M (size_pred G.n_rows) 0 G.n_cols
  let t2 := memcpy t1 (G.n_rows + 1) 1 M 0 0 G.n_cols
  let t3 := intLoop 1 (G.n_rows + 1) (fun i t =>
    (t.write i 0 (M (i - 1) (size_pred G.n_cols))).write i (G.n_cols + 1) (M (i - 1) 0)) t2
  let t4 := t3.write 0 0 (M (size_pred G.n_rows) (size_pred G.n_cols))
  let t5 := t4.write (G.n_rows + 1) 0 (M 0 (size_pred G.n_cols))
  let t6 := t5.write 0 (G.n_cols + 1) (M (size_pred G.n_rows) 0)
  t6.write (G.n_rows + 1) (G.n_cols + 1) (M 0 0)

/-- Lines 137-146 of `game_update`: the padding of a walled board; both loops count with
an `int`. -/
def pad_walled (G : game_state) (tempgrid : Grid) : Grid :=
  let t1 := intLoop 0 (G.n_rows + 2) (fun i t =>
    (t.write i 0 false).write i (G.n_cols + 1) false) tempgrid
  intLoop 1 (G.n_cols + 1) (fun j t =>
    (t.write 0 j false).write (G.n_rows + 1) j false) t1

/-- Lines 116-151 of `game_update`: the padded copy of the board.  The copy loop of
line 149 counts with an `int`.  An access to a row of `tempgrid` whose row pointer
`create_matrix` did not set goes through an uninitialised pointer; the model reads
indeterminate memory there (the heap contents), and `game_update_defined` is false for
such a board. -/
def padded (G : game_state) (heap : Grid) : Grid :=
  let tempgrid := create_matrix (G.n_rows + 2) (G.n_cols + 2) heap
  let t := if G.toroidal then pad_toroidal G tempgrid.1 else pad_walled G tempgrid.1
  let t1 := intLoop 0 G.n_rows (fun i t => memcpy t (i + 1) 1 G.Mv i 0 G.n_cols) t
  fun a b => if a < tempgrid.2 then t1 a b else heap a b

/-- Lines 160-168 of `game_update`: the loop that fills `M` and counts the changes.
The state of the loop is the pair `(M, count)`. -/
def fill (tempgrid : Grid) (n_rows n_cols : Nat) (s : Grid × Nat) : Grid × Nat :=
  forLoop 1 (n_rows + 1) (fun i s =>
    forLoop 1 (n_cols + 1) (fun j s =>
      let nbrs := nbrs_at tempgrid i j
      let temp := test_life (tempgrid i j) nbrs
      (s.1.write (i - 1) (j - 1) temp,
        (s.2 + (temp != tempgrid i j).toNat) % SIZE_WIDTH)) s) s

/-- The function `game_update`.  `heap` is the indeterminate content of the block
allocated for `tempgrid`; `count0` is the indeterminate start value of the local
`count`, which is declared without an initialiser.  The result is the new state
and the returned `int`. -/
def game_update (G : game_state) (heap : Grid) (count0 : Nat) : game_state × Int :=
  let tempgrid := padded G heap
  let M := memset G.Mv G.n_cols (G.n_rows * G.n_cols)
  let r := fill tempgrid G.n_rows G.n_cols (M, count0 % SIZE_WIDTH)
  ({ G with Mv := r.1 }, to_int r.2)

/-- Whether a call of `game_update` stays inside defined behaviour: the board has a
row (`M[0]`, line 154); no `int` counter overflows, the largest bound being
`n_rows + 2` (line 65 inside `create_matrix`, line 138) and, on a walled board,
`n_cols + 1` (line 142); on a toroidal board `M[n_rows - 1]` and `M[i][n_cols - 1]`
(lines 122-135) exist, so the board has a column. -/
def game_update_defined (G : game_state) : Bool :=
  decide (1 ≤ G.n_rows ∧ G.n_rows + 2 ≤ INT_MAX)
    && (if G.toroidal then decide (1 ≤ G.n_cols) else decide (G.n_cols + 1 ≤ INT_MAX))

/-! ## The setup phase (`game.c`) -/

/-- The function `life_spawn`. -/
def life_spawn (L : game_state) : game_state :=
  { L with Mv := L.Mv.write L.ypos L.xpos (!(L.Mv L.ypos L.xpos)) }

/-- The function `move_cursor`; the sums are `size_t` sums, the offsets are
converted from `signed`. -/
def move_cursor (L : game_state) (t0 t1 : Int) : game_state :=
  let L1 := if t0 ≠ 0 then
      { L with xpos := ((L.xpos + L.n_cols) % SIZE_WIDTH + to_size_t t0) % SIZE_WIDTH % L.n_cols }
    else L
  if t1 ≠ 0 then
    { L1 with ypos := ((L1.ypos + L1.n_rows) % SIZE_WIDTH + to_size_t t1) % SIZE_WIDTH % L1.n_rows }
  else L1

/-- The code of a character constant. -/
def key (ch : Char) : Int := (ch.toNat : Int)

/-- The constant `EOF`. -/
def EOF : Int := -1

/-- The `switch` of `input_thread` for the value `c` returned by `getch()`; 27 is the
escape character.  The second component tells whether control left through
`goto FINISH`. -/
def input_key (G : game_state) (c : Int) : game_state × Bool :=
  if c = key 'a' ∨ c = key 'A' then
    (move_cursor { G with last_command := GO_LEFT } (-1) 0, false)
  else if c = key 'd' ∨ c = key 'D' then
    (move_cursor { G with last_command := GO_RIGHT } 1 0, false)
  else if c = key 'w' ∨ c = key 'W' then
    (move_cursor { G with last_command := GO_UP } 0 (-1), false)
  else if c = key 's' ∨ c = key 'S' then
    (move_cursor { G with last_command := GO_DOWN } 0 1, false)
  else if c = key 't' ∨ c = key 'T' then
    ({ G with last_command := TOGGLE_TOROIDAL, toroidal := !G.toroidal }, false)
  else if c = key 'e' ∨ c = key 'E' ∨ c = key '+' then
    let G1 := { G with last_command := INC_FRAMES }
    (if G1.update_rate < 128 then { G1 with update_rate := G1.update_rate + 1 } else G1, false)
  else if c = key 'q' ∨ c = key 'Q' ∨ c = key '-' then
    let G1 := { G with last_command := DEC_FRAMES }
    (if G1.update_rate > 1 then { G1 with update_rate := G1.update_rate - 1 } else G1, false)
  else if c = key ' ' ∨ c = key 'f' ∨ c = key 'F' then
    (life_spawn { G with last_command := SPAWN_LIFE }, false)
  else if c = 27 ∨ c = key '\r' ∨ c = EOF then
    ({ G with last_command := START_GAME }, true)
  else (G, false)

/-- The function `input_thread` on a stream of events.  An event is the value
returned by `getch()` together with the value of `feof(stdin)` at the loop test
that follows it.  With no event left the thread is blocked in `getch()`. -/
def input_thread : game_state → List (Int × Bool) → game_state
  | G, [] => G
  | G, (c, eof) :: rest =>
    let r := input_key G c
    if r.2 then { r.1 with inp_over := true }
    else if r.1.inp_over || eof then { r.1 with inp_over := true }
    else input_thread r.1 rest

/-! ## Reference definitions taken from the specification -/

/-- The eight neighbour offsets `(di, dj)`. -/
def offsets : List (Int × Int) :=
  [(-1, -1), (-1, 0), (-1, 1), (0, -1), (0, 1), (1, -1), (1, 0), (1, 1)]

/-- Whether position `(y, x)` lies inside the board and holds a live cell. -/
def alive_inside (M : Grid) (rows cols : Nat) (y x : Int) : Bool :=
  decide (0 ≤ y ∧ y < rows ∧ 0 ≤ x ∧ x < cols) && M y.toNat x.toNat

/-- Walled neighbour count as the specification words it: the number of live cells
among the positions `(i + di, j + dj)` that lie inside the board. -/
def spec_nbrs_walled (M : Grid) (rows cols i j : Nat) : Nat :=
  (offsets.map (fun d => (alive_inside M rows cols (i + d.1) (j + d.2)).toNat)).sum

/-- Toroidal neighbour count as the specification words it: the sum over the eight
offsets of the cell `((i + di) mod rows, (j + dj) mod cols)`, with multiplicity. -/
def spec_nbrs_toroidal (M : Grid) (rows cols i j : Nat) : Nat :=
  (offsets.map (fun d =>
    (M (((i : Int) + d.1) % (rows : Int)).toNat (((j : Int) + d.2) % (cols : Int)).toNat).toNat)).sum

/-- The neighbour count of the specification for the topology of `G`. -/
def spec_nbrs (G : game_state) (i j : Nat) : Nat :=
  if G.toroidal then spec_nbrs_toroidal G.Mv G.n_rows G.n_cols i j
  else spec_nbrs_walled G.Mv G.n_rows G.n_cols i j

/-- The canonical B3/S23 rule as the specification words it. -/
def spec_b3s23 (current : Bool) (nbrs : Nat) : Bool :=
  if current then
    if nbrs < 2 then false else if nbrs = 2 ∨ nbrs = 3 then true else false
  else
    if nbrs = 3 then true else false

/-- The number of cells of the `rows × cols` board whose state in `B` (after) differs
from their state in `A` (before). -/
def changed_cells (A B : Grid) (rows cols : Nat) : Nat :=
  ((List.range rows).map (fun i =>
    ((List.range cols).map (fun j => (B i j != A i j).toNat)).sum)).sum

/-- The board with exactly the listed cells alive. -/
def board_of (cells : List (Nat × Nat)) : Grid :=
  fun i j => cells.contains (i, j)

/-- A state with the given board, every counter at its initial value. -/
def state_of (rows cols : Nat) (toroidal : Bool) (M : Grid) : game_state :=
  { init_game rows cols 250 toroidal M with Mv := M }

/-! ## The setup renderer (`game.c`, `draw_input_thread`) -/

/-- The locals of `draw_input_thread`. -/
structure draw_locals where
  xpos : Nat
  ypos : Nat
  spawns : Nat
  update_rate : Nat
  toroidal : Bool

/-- The condition of the inner wait loop of `draw_input_thread` (lines 115-119),
evaluated left to right with the short circuit of `&&`.  The last two operands are the
assignments `update_rate = G->update_rate` and `spawns = G->spawns`: each stores the
shared value in the local and is true when the stored value is not 0.  The result is
the value of the condition and the locals after its evaluation. -/
def draw_input_waits (G : game_state) (L : draw_locals) : Bool × draw_locals :=
  if G.inp_over then (false, L)
  else if L.xpos ≠ G.xpos then (false, L)
  else if L.ypos ≠ G.ypos then (false, L)
  else
    let L1 := { L with update_rate := G.update_rate }
    if L1.update_rate = 0 then (false, L1)
    else
      let L2 := { L1 with spawns := G.spawns }
      (decide (L2.spawns ≠ 0), L2)

/-- The wait condition as the comments next to it word it: wait if the input phase is
not over, the displayed cursor position is not outdated, the correct update rate is
displayed and all spawns and kills are drawn. -/
def spec_draw_input_waits (G : game_state) (L : draw_locals) : Bool :=
  !G.inp_over && L.xpos == G.xpos && L.ypos == G.ypos
    && L.update_rate == G.update_rate && L.spawns == G.spawns

/-! ## The run phase (`game.c`, `game_update_thread` and `draw_game_thread`) -/

/-- The condition of the wait loop of `game_update_thread` (line 235). -/
def update_waits (G : game_state) : Bool :=
  !G.finished && (G.updates != G.drawn)

/-- The critical section of `game_update_thread` (lines 240-244).  The `int` returned
by `game_update` is converted to the `size_t` local `changed`; the result is the new
state and the new value of `changed`. -/
def update_section (G : game_state) (heap : Grid) (count0 : Nat) : game_state × Nat :=
  let r := game_update G heap count0
  let changed := to_size_t r.2
  let G1 : game_state := { r.1 with updates := (r.1.updates + 1) % SIZE_WIDTH }
  (if G1.updates ≥ G1.maxiters ∨ changed = 0 then { G1 with finished := true } else G1,
    changed)

/-- The condition of the wait loop of `draw_game_thread` (line 213). -/
def draw_waits (G : game_state) : Bool :=
  !G.finished && decide (G.drawn ≥ G.updates)

/-- The critical section of `draw_game_thread` (lines 219-222). -/
def draw_section (G : game_state) : game_state :=
  { G with drawn := (G.drawn + 1) % SIZE_WIDTH }

/-- The renderer of the sequential model: it draws as soon as its wait loop lets it. -/
def render_caught_up (G : game_state) : game_state :=
  if draw_waits G then G else draw_section G

/-- The loop of `game_update_thread`, run sequentially with the renderer catching up
after every critical section.  `env k` is the indeterminate heap block and start value
of `count` that the `k`-th call of `game_update` finds; `changed` is the local of the
thread.  The result lists the state at every evaluation of the loop test, the last one
being the state in which the loop ends; `none` when the fuel runs out, when the thread
would wait for ever, or when the call of `game_update` has no defined behaviour. -/
def game_update_thread (env : Nat → Grid × Nat) :
    Nat → Nat → game_state → Nat → Option (List game_state)
  | 0, _, G, changed => if G.finished ∨ changed = 0 then some [G] else none
  | fuel + 1, k, G, changed =>
    if G.finished ∨ changed = 0 then some [G]
    else if update_waits G then none
    else if game_update_defined G = false then none
    else
      let r := update_section G (env k).1 (env k).2
      (game_update_thread env fuel (k + 1) (render_caught_up r.1) r.2).map (fun t => G :: t)

/-- Where a thread of the run phase stands: at its outer loop test, inside the loop
before its critical section, or returned. -/
inductive thread_pc where
  | at_test
  | in_loop
  | returned
deriving DecidableEq

/-- A state of the run phase: the shared state, the local `changed` of
`game_update_thread` and the positions of the two threads. -/
structure run_state where
  G : game_state
  changed : Nat
  upd_pc : thread_pc
  draw_pc : thread_pc

/-- The steps of the run phase.  `upd_enter` and `draw_enter` are the outer loop tests,
made without the mutex; `upd_critical` and `draw_critical` are the critical sections,
entered when the wait loop under the mutex ends. -/
inductive run_action where
  | upd_enter
  | upd_critical (heap : Grid) (count0 : Nat)
  | draw_enter
  | draw_critical

/-- One step of the run phase, `none` when the step is not enabled. -/
def run_step (s : run_state) : run_action → Option run_state
  | .upd_enter =>
    if s.upd_pc = .at_test then
      some { s with upd_pc := if !s.G.finished && s.changed != 0 then .in_loop else .returned }
    else none
  | .upd_critical heap count0 =>
    if s.upd_pc = .in_loop ∧ update_waits s.G = false then
      some { s with G := (update_section s.G heap count0).1,
                    changed := (update_section s.G heap count0).2,
                    upd_pc := .at_test }
    else none
  | .draw_enter =>
    if s.draw_pc = .at_test then
      some { s with draw_pc := if !s.G.finished then .in_loop else .returned }
    else none
  | .draw_critical =>
    if s.draw_pc = .in_loop ∧ draw_waits s.G = false then
      some { s with G := draw_section s.G, draw_pc := .at_test }
    else none

/-- A run: the steps of an interleaving, one after the other. -/
def run_steps : run_state → List run_action → Option run_state
  | s, [] => some s
  | s, a :: rest =>
    match run_step s a with
    | none => none
    | some s1 => run_steps s1 rest

/-- The start of the run phase: both threads at their loop test, `changed` at 1. -/
def run_start (G : game_state) : run_state :=
  { G := G, changed := 1, upd_pc := .at_test, draw_pc := .at_test }

/-- The invariant of the run phase for the iteration cap `N`: the counters are within
one tick, a compute thread inside its loop has seen `finished` false, a renderer inside
its loop after `finished` was set still has one generation to draw, and an unfinished
run is below the cap. -/
def run_inv (N : Nat) (s : run_state) : Prop :=
  s.G.maxiters = N
  ∧ s.G.drawn ≤ s.G.updates
  ∧ s.G.updates ≤ s.G.drawn + 1
  ∧ s.G.updates ≤ max N 1
  ∧ (s.upd_pc = .in_loop → s.G.finished = false)
  ∧ (s.draw_pc = .in_loop → s.G.finished = true → s.G.drawn < s.G.updates)
  ∧ (s.G.finished = false → s.G.updates < N ∨ s.G.updates = 0)

/-! ## Reading a matrix after a loop of writes -/

theorem write_apply (M : Grid) (i j : Nat) (v : Bool) (a b : Nat) :
    M.write i j v a b = if a = i ∧ b = j then v else M a b := rfl

theorem loopN_succ {σ : Type} (n : Nat) (body : Nat → σ → σ) (s : σ) :
    loopN (n + 1) body s = body n (loopN n body s) := rfl

theorem forLoop_zero {σ : Type} (n : Nat) (body : Nat → σ → σ) (s : σ) :
    forLoop 0 n body s = loopN n body s := by
  simp [forLoop]

theorem forLoop_one {σ : Type} (n : Nat) (body : Nat → σ → σ) (s : σ) :
    forLoop 1 (n + 1) body s = loopN n (fun k => body (k + 1)) s := by
  simp [forLoop, Nat.add_comm]

theorem memcpy_apply (dst src : Grid) (di dj si sj n a b : Nat) :
    memcpy dst di dj src si sj n a b =
      if a = di ∧ dj ≤ b ∧ b < dj + n then src si (sj + (b - dj)) else dst a b := by
  induction n with
  | zero =>
    have h : ¬ (a = di ∧ dj ≤ b ∧ b < dj + 0) := by omega
    rw [if_neg h]; rfl
  | succ n ih =>
    have step : memcpy dst di dj src si sj (n + 1)
        = (memcpy dst di dj src si sj n).write di (dj + n) (src si (sj + n)) := rfl
    rw [step, write_apply, ih]
    by_cases h1 : a = di ∧ b = dj + n
    · obtain ⟨rfl, rfl⟩ := h1
      simp
    · rw [if_neg h1]
      by_cases h2 : a = di ∧ dj ≤ b ∧ b < dj + n
      · rw [if_pos h2, if_pos (by omega)]
      · rw [if_neg h2, if_neg (by omega)]

/-- A loop over rows that writes the two cells `[i][c1]` and `[i][c2]` of each row. -/
theorem loopN_two_cols (lo n c1 c2 : Nat) (v1 v2 : Nat → Bool) (T0 : Grid) (a b : Nat) :
    loopN n (fun k t => (t.write (k + lo) c1 (v1 (k + lo))).write (k + lo) c2 (v2 (k + lo))) T0 a b
      = if lo ≤ a ∧ a < lo + n ∧ b = c2 then v2 a
        else if lo ≤ a ∧ a < lo + n ∧ b = c1 then v1 a else T0 a b := by
  induction n with
  | zero =>
    rw [if_neg (by omega), if_neg (by omega)]; rfl
  | succ n ih =>
    rw [loopN_succ, write_apply, write_apply, ih]
    split_ifs <;>
      first
      | rfl
      | (exfalso; omega)
      | (have ha : a = n + lo := by omega
         rw [ha])

/-- A loop over columns that writes the two cells `[r1][j]` and `[r2][j]` of each column. -/
theorem loopN_two_rows (lo n r1 r2 : Nat) (v1 v2 : Nat → Bool) (T0 : Grid) (a b : Nat) :
    loopN n (fun k t => (t.write r1 (k + lo) (v1 (k + lo))).write r2 (k + lo) (v2 (k + lo))) T0 a b
      = if lo ≤ b ∧ b < lo + n ∧ a = r2 then v2 b
        else if lo ≤ b ∧ b < lo + n ∧ a = r1 then v1 b else T0 a b := by
  induction n with
  | zero =>
    rw [if_neg (by omega), if_neg (by omega)]; rfl
  | succ n ih =>
    rw [loopN_succ, write_apply, write_apply, ih]
    split_ifs <;>
      first
      | rfl
      | (exfalso; omega)
      | (have hb : b = n + lo := by omega
         rw [hb])

/-- The loop of lines 149-151 that copies the board into the interior. -/
theorem copy_interior_apply (M T0 : Grid) (rows cols a b : Nat) :
    loopN rows (fun i t => memcpy t (i + 1) 1 M i 0 cols) T0 a b
      = if 1 ≤ a ∧ a ≤ rows ∧ 1 ≤ b ∧ b ≤ cols then M (a - 1) (b - 1) else T0 a b := by
  induction rows with
  | zero =>
    rw [if_neg (by omega)]; rfl
  | succ n ih =>
    rw [loopN_succ, memcpy_apply, ih]
    by_cases h1 : a = n + 1 ∧ 1 ≤ b ∧ b < 1 + cols
    · obtain ⟨rfl, h1b, h1c⟩ := h1
      rw [if_pos ⟨rfl, h1b, h1c⟩, if_pos (by omega)]
      simp
    · rw [if_neg h1]
      by_cases h2 : 1 ≤ a ∧ a ≤ n ∧ 1 ≤ b ∧ b ≤ cols
      · rw [if_pos h2, if_pos (by omega)]
      · rw [if_neg h2, if_neg (by omega)]

theorem forLoop_eq_loopN {σ : Type} (lo hi : Nat) (body : Nat → σ → σ) (s : σ) :
    forLoop lo hi body s = loopN (hi - lo) (fun k => body (k + lo)) s := by
  simp [forLoop, Nat.add_comm]

theorem loopN_last {σ : Type} (n : Nat) (f : Nat → σ) (s : σ) :
    loopN n (fun k _ => f k) s = if n = 0 then s else f (n - 1) := by
  cases n with
  | zero => rfl
  | succ m => rfl

/-- The number of row pointers that `create_matrix` sets. -/
theorem create_matrix_ptrs (rows cols : Nat) (heap : Grid) :
    (create_matrix rows cols heap).2 = max 1 (min rows (INT_MAX + 1)) := by
  unfold create_matrix intLoop
  rw [forLoop_eq_loopN, loopN_last]
  split_ifs <;> omega

theorem create_matrix_cells (rows cols : Nat) (heap : Grid) :
    (create_matrix rows cols heap).1 = heap := rfl

/-! ## The padded copy -/

theorem pad_walled_apply (G : game_state) (heap : Grid) (a b : Nat) :
    pad_walled G heap a b =
      if (a < min (G.n_rows + 2) (INT_MAX + 1) ∧ (b = 0 ∨ b = G.n_cols + 1))
          ∨ ((a = 0 ∨ a = G.n_rows + 1) ∧ 1 ≤ b ∧ b < min (G.n_cols + 1) (INT_MAX + 1))
      then false
      else heap a b := by
  have h1 := loopN_two_cols 0 (min (G.n_rows + 2) (INT_MAX + 1) - 0) 0 (G.n_cols + 1)
    (fun _ => false) (fun _ => false) heap a b
  have h2 := loopN_two_rows 1 (min (G.n_cols + 1) (INT_MAX + 1) - 1) 0 (G.n_rows + 1)
    (fun _ => false) (fun _ => false)
    (loopN (min (G.n_rows + 2) (INT_MAX + 1) - 0)
      (fun k t => (t.write (k + 0) 0 false).write (k + 0) (G.n_cols + 1) false) heap) a b
  unfold pad_walled intLoop
  rw [forLoop_eq_loopN, forLoop_eq_loopN, h2, h1]
  split_ifs <;> first | rfl | (exfalso; omega)

theorem size_pred_pos (n : Nat) (h : 1 ≤ n) : size_pred n = n - 1 := by
  unfold size_pred
  rw [if_neg (by omega)]

theorem pad_toroidal_apply (G : game_state) (heap : Grid) (a b : Nat) :
    pad_toroidal G heap a b =
      if a = 0 ∧ b = 0 then G.Mv (size_pred G.n_rows) (size_pred G.n_cols)
      else if a = G.n_rows + 1 ∧ b = 0 then G.Mv 0 (size_pred G.n_cols)
      else if a = 0 ∧ b = G.n_cols + 1 then G.Mv (size_pred G.n_rows) 0
      else if a = G.n_rows + 1 ∧ b = G.n_cols + 1 then G.Mv 0 0
      else if 1 ≤ a ∧ a < min (G.n_rows + 1) (INT_MAX + 1) ∧ b = 0 then
        G.Mv (a - 1) (size_pred G.n_cols)
      else if 1 ≤ a ∧ a < min (G.n_rows + 1) (INT_MAX + 1) ∧ b = G.n_cols + 1 then
        G.Mv (a - 1) 0
      else if a = 0 ∧ 1 ≤ b ∧ b ≤ G.n_cols then G.Mv (size_pred G.n_rows) (b - 1)
      else if a = G.n_rows + 1 ∧ 1 ≤ b ∧ b ≤ G.n_cols then G.Mv 0 (b - 1)
      else heap a b := by
  have h := loopN_two_cols 1 (min (G.n_rows + 1) (INT_MAX + 1) - 1) 0 (G.n_cols + 1)
    (fun i => G.Mv (i - 1) (size_pred G.n_cols)) (fun i => G.Mv (i - 1) 0)
    (memcpy (memcpy heap 0 1 G.Mv (size_pred G.n_rows) 0 G.n_cols) (G.n_rows + 1) 1 G.Mv 0 0
      G.n_cols)
    a b
  unfold pad_toroidal intLoop
  simp only [write_apply]
  rw [forLoop_eq_loopN, h, memcpy_apply, memcpy_apply]
  simp only [Nat.zero_add]
  split_ifs <;> first | rfl | (exfalso; omega)

/-- The padded copy at any position: the cell is reached when its row has a row
pointer; then it holds the board cell if the copy loop reached its row, else what the
padding wrote. -/
theorem padded_read (G : game_state) (heap : Grid) (a b : Nat) :
    padded G heap a b =
      if a < max 1 (min (G.n_rows + 2) (INT_MAX + 1)) then
        if 1 ≤ a ∧ a ≤ min G.n_rows (INT_MAX + 1) ∧ 1 ≤ b ∧ b ≤ G.n_cols then
          G.Mv (a - 1) (b - 1)
        else if G.toroidal then pad_toroidal G heap a b else pad_walled G heap a b
      else heap a b := by
  have hc := copy_interior_apply G.Mv
    (if G.toroidal = true then pad_toroidal G heap else pad_walled G heap)
    (min G.n_rows (INT_MAX + 1)) G.n_cols a b
  unfold padded intLoop
  simp only [create_matrix_ptrs, create_matrix_cells]
  rw [forLoop_zero, hc]
  cases G.toroidal <;> rfl

/-- Walled board: a position of the padded copy inside the `(rows + 2) × (cols + 2)`
block and inside the reach of the `int` counters holds the board shifted by one, with
dead cells around it, whatever the heap held. -/
theorem padded_walled (G : game_state) (heap : Grid) (hw : G.toroidal = false)
    (a b : Nat) (y x : Int) (hy : y = (a : Int) - 1) (hx : x = (b : Int) - 1)
    (ha : a ≤ G.n_rows + 1) (hb : b ≤ G.n_cols + 1)
    (ha2 : a ≤ INT_MAX) (hb2 : b ≤ INT_MAX) :
    padded G heap a b = alive_inside G.Mv G.n_rows G.n_cols y x := by
  rw [padded_read, if_pos (by omega), hw, pad_walled_apply]
  unfold alive_inside
  by_cases h : 1 ≤ a ∧ a ≤ G.n_rows ∧ 1 ≤ b ∧ b ≤ G.n_cols
  · have e1 : y.toNat = a - 1 := by omega
    have e2 : x.toNat = b - 1 := by omega
    have e3 : (0 ≤ y ∧ y < (G.n_rows : Int) ∧ 0 ≤ x ∧ x < (G.n_cols : Int)) := by omega
    rw [if_pos (by omega), e1, e2, decide_eq_true e3, Bool.true_and]
  · have e3 : ¬ (0 ≤ y ∧ y < (G.n_rows : Int) ∧ 0 ≤ x ∧ x < (G.n_cols : Int)) := by omega
    rw [if_neg (by omega), if_neg (by simp), if_pos (by omega), decide_eq_false e3,
      Bool.false_and]

theorem wrap_index (n a : Nat) (hn : 1 ≤ n) (ha : a ≤ n + 1) :
    (((a : Int) - 1) % (n : Int)).toNat
      = if a = 0 then n - 1 else if a = n + 1 then 0 else a - 1 := by
  by_cases h0 : a = 0
  · subst h0
    rw [if_pos rfl, ← Int.add_emod_self, Int.emod_eq_of_lt (by omega) (by omega)]
    omega
  · rw [if_neg h0]
    by_cases h1 : a = n + 1
    · subst h1
      rw [if_pos rfl]
      have : ((n + 1 : Nat) : Int) - 1 = n := by omega
      rw [this, Int.emod_self]
      rfl
    · rw [if_neg h1, Int.emod_eq_of_lt (by omega) (by omega)]
      omega

set_option maxHeartbeats 400000 in
/-- Toroidal board: a position of the padded copy inside the `(rows + 2) × (cols + 2)`
block and inside the reach of the `int` counters holds the board cell
`((a - 1) mod rows, (b - 1) mod cols)`, whatever the heap held. -/
theorem padded_toroidal (G : game_state) (heap : Grid) (ht : G.toroidal = true)
    (hr : 1 ≤ G.n_rows) (hc : 1 ≤ G.n_cols)
    (a b : Nat) (y x : Int) (hy : y = (a : Int) - 1) (hx : x = (b : Int) - 1)
    (ha : a ≤ G.n_rows + 1) (hb : b ≤ G.n_cols + 1) (ha2 : a ≤ INT_MAX) :
    padded G heap a b
      = G.Mv (y % (G.n_rows : Int)).toNat (x % (G.n_cols : Int)).toNat := by
  subst hy hx
  rw [padded_read, if_pos (by omega), ht, if_pos (rfl : true = true), pad_toroidal_apply,
    size_pred_pos _ hr, size_pred_pos _ hc, wrap_index _ _ hr ha, wrap_index _ _ hc hb]
  split_ifs <;> first | rfl | (exfalso; omega)

/-- The interior of the padded copy is the board, under both topologies, in every row
that the `int` counter of the copy loop reaches. -/
theorem padded_interior (G : game_state) (heap : Grid) (i j : Nat)
    (hi : i < G.n_rows) (hj : j < G.n_cols) (hi2 : i + 1 ≤ INT_MAX) :
    padded G heap (i + 1) (j + 1) = G.Mv i j := by
  rw [padded_read, if_pos (by omega), if_pos (by omega)]
  rfl

/-! ## The fill loop -/

theorem loopN_pair {α β : Type} (n : Nat) (F : Nat → α → α) (H : Nat → β → β) (s : α × β) :
    loopN n (fun k s => (F k s.1, H k s.2)) s = (loopN n F s.1, loopN n H s.2) := by
  induction n with
  | zero => rfl
  | succ n ih => rw [loopN_succ, ih]; rfl

/-- The fill loop splits into a loop on the matrix and a loop on the counter. -/
theorem fill_eq (T : Grid) (rows cols : Nat) (s : Grid × Nat) :
    fill T rows cols s =
      (loopN rows (fun k M => loopN cols (fun l M =>
          M.write k l (next_cell T (k + 1) (l + 1))) M) s.1,
       loopN rows (fun k c => loopN cols (fun l c =>
          (c + (next_cell T (k + 1) (l + 1) != T (k + 1) (l + 1)).toNat) % SIZE_WIDTH) c) s.2) := by
  have inner : ∀ (k : Nat) (s : Grid × Nat),
      forLoop 1 (cols + 1) (fun j s =>
        (s.1.write (k + 1 - 1) (j - 1) (test_life (T (k + 1) j) (nbrs_at T (k + 1) j)),
          (s.2 + (test_life (T (k + 1) j) (nbrs_at T (k + 1) j) != T (k + 1) j).toNat)
            % SIZE_WIDTH)) s
      = (loopN cols (fun l M => M.write k l (next_cell T (k + 1) (l + 1))) s.1,
         loopN cols (fun l c =>
          (c + (next_cell T (k + 1) (l + 1) != T (k + 1) (l + 1)).toNat) % SIZE_WIDTH) s.2) := by
    intro k s
    rw [forLoop_one]
    exact loopN_pair cols (fun l M => M.write k l (next_cell T (k + 1) (l + 1)))
      (fun l c => (c + (next_cell T (k + 1) (l + 1) != T (k + 1) (l + 1)).toNat) % SIZE_WIDTH) s
  unfold fill
  rw [forLoop_one]
  have outer : (fun k (s : Grid × Nat) => forLoop 1 (cols + 1) (fun j s =>
        (s.1.write (k + 1 - 1) (j - 1) (test_life (T (k + 1) j) (nbrs_at T (k + 1) j)),
          (s.2 + (test_life (T (k + 1) j) (nbrs_at T (k + 1) j) != T (k + 1) j).toNat)
            % SIZE_WIDTH)) s)
      = (fun k (s : Grid × Nat) =>
        (loopN cols (fun l M => M.write k l (next_cell T (k + 1) (l + 1))) s.1,
         loopN cols (fun l c =>
          (c + (next_cell T (k + 1) (l + 1) != T (k + 1) (l + 1)).toNat) % SIZE_WIDTH) s.2)) := by
    funext k s
    exact inner k s
  exact (congrArg (fun body => loopN rows body s) outer).trans
    (loopN_pair rows
      (fun k M => loopN cols (fun l M => M.write k l (next_cell T (k + 1) (l + 1))) M)
      (fun k c => loopN cols (fun l c =>
          (c + (next_cell T (k + 1) (l + 1) != T (k + 1) (l + 1)).toNat) % SIZE_WIDTH) c) s)

theorem loopN_write_row (n k : Nat) (f : Nat → Bool) (M : Grid) (a b : Nat) :
    loopN n (fun l M => M.write k l (f l)) M a b = if a = k ∧ b < n then f b else M a b := by
  induction n with
  | zero => rw [if_neg (by omega)]; rfl
  | succ n ih =>
    rw [loopN_succ, write_apply, ih]
    split_ifs <;>
      first
      | rfl
      | (exfalso; omega)
      | (have hb : b = n := by omega
         rw [hb])

theorem loopN_write_all (rows cols : Nat) (f : Nat → Nat → Bool) (M : Grid) (a b : Nat) :
    loopN rows (fun k M => loopN cols (fun l M => M.write k l (f k l)) M) M a b
      = if a < rows ∧ b < cols then f a b else M a b := by
  induction rows with
  | zero => rw [if_neg (by omega)]; rfl
  | succ n ih =>
    rw [loopN_succ, loopN_write_row, ih]
    split_ifs <;>
      first
      | rfl
      | (exfalso; omega)
      | (have ha : a = n := by omega
         rw [ha])

theorem loopN_count_row (n : Nat) (g : Nat → Nat) (c : Nat) (hc : c < SIZE_WIDTH) :
    loopN n (fun l c => (c + g l) % SIZE_WIDTH) c
      = (c + ((List.range n).map g).sum) % SIZE_WIDTH := by
  induction n with
  | zero => simpa [loopN] using (Nat.mod_eq_of_lt hc).symm
  | succ n ih =>
    rw [loopN_succ, ih, List.range_succ, List.map_append, List.sum_append, Nat.mod_add_mod]
    simp [Nat.add_assoc]

theorem loopN_count_all (rows cols : Nat) (g : Nat → Nat → Nat) (c : Nat)
    (hc : c < SIZE_WIDTH) :
    loopN rows (fun k c => loopN cols (fun l c => (c + g k l) % SIZE_WIDTH) c) c
      = (c + ((List.range rows).map (fun k => ((List.range cols).map (g k)).sum)).sum)
          % SIZE_WIDTH := by
  induction rows with
  | zero => simpa [loopN] using (Nat.mod_eq_of_lt hc).symm
  | succ n ih =>
    have hpos : 0 < SIZE_WIDTH := by unfold SIZE_WIDTH; positivity
    rw [loopN_succ, ih, loopN_count_row _ _ _ (Nat.mod_lt _ hpos), List.range_succ,
      List.map_append, List.sum_append, Nat.mod_add_mod]
    simp [Nat.add_assoc]

/-- Every cell of the board receives the value that `test_life` gives for the padded
copy; the heap contents and the start value of `count` do not matter. -/
theorem game_update_cell (G : game_state) (heap : Grid) (count0 i j : Nat)
    (hi : i < G.n_rows) (hj : j < G.n_cols) :
    (game_update G heap count0).1.Mv i j = next_cell (padded G heap) (i + 1) (j + 1) := by
  unfold game_update
  simp only [fill_eq]
  rw [loopN_write_all G.n_rows G.n_cols (fun k l => next_cell (padded G heap) (k + 1) (l + 1)),
    if_pos ⟨hi, hj⟩]

/-! ## Neighbour counts of the padded copy against the specification -/

theorem nbrs_at_eq (t : Grid) (i j : Nat) :
    nbrs_at t i j
      = (t (i - 1) (j - 1)).toNat + (t (i - 1) j).toNat + (t (i - 1) (j + 1)).toNat
        + (t i (j - 1)).toNat + (t i (j + 1)).toNat + (t (i + 1) (j - 1)).toNat
        + (t (i + 1) j).toNat + (t (i + 1) (j + 1)).toNat := rfl

theorem nbrs_at_walled (G : game_state) (heap : Grid) (hw : G.toroidal = false)
    (i j : Nat) (hi : i < G.n_rows) (hj : j < G.n_cols)
    (hi2 : i + 2 ≤ INT_MAX) (hj2 : j + 2 ≤ INT_MAX) :
    nbrs_at (padded G heap) (i + 1) (j + 1) = spec_nbrs_walled G.Mv G.n_rows G.n_cols i j := by
  have e1 := padded_walled G heap hw (i + 1 - 1) (j + 1 - 1) ((i : Int) + (-1)) ((j : Int) + (-1))
    (by omega) (by omega) (by omega) (by omega) (by omega) (by omega)
  have e2 := padded_walled G heap hw (i + 1 - 1) (j + 1) ((i : Int) + (-1)) ((j : Int) + 0)
    (by omega) (by omega) (by omega) (by omega) (by omega) (by omega)
  have e3 := padded_walled G heap hw (i + 1 - 1) (j + 1 + 1) ((i : Int) + (-1)) ((j : Int) + 1)
    (by omega) (by omega) (by omega) (by omega) (by omega) (by omega)
  have e4 := padded_walled G heap hw (i + 1) (j + 1 - 1) ((i : Int) + 0) ((j : Int) + (-1))
    (by omega) (by omega) (by omega) (by omega) (by omega) (by omega)
  have e5 := padded_walled G heap hw (i + 1) (j + 1 + 1) ((i : Int) + 0) ((j : Int) + 1)
    (by omega) (by omega) (by omega) (by omega) (by omega) (by omega)
  have e6 := padded_walled G heap hw (i + 1 + 1) (j + 1 - 1) ((i : Int) + 1) ((j : Int) + (-1))
    (by omega) (by omega) (by omega) (by omega) (by omega) (by omega)
  have e7 := padded_walled G heap hw (i + 1 + 1) (j + 1) ((i : Int) + 1) ((j : Int) + 0)
    (by omega) (by omega) (by omega) (by omega) (by omega) (by omega)
  have e8 := padded_walled G heap hw (i + 1 + 1) (j + 1 + 1) ((i : Int) + 1) ((j : Int) + 1)
    (by omega) (by omega) (by omega) (by omega) (by omega) (by omega)
  unfold nbrs_at spec_nbrs_walled offsets
  rw [e1, e2, e3, e4, e5, e6, e7, e8]
  simp only [List.map_cons, List.map_nil, List.sum_cons, List.sum_nil]
  omega

theorem nbrs_at_toroidal (G : game_state) (heap : Grid) (ht : G.toroidal = true)
    (i j : Nat) (hi : i < G.n_rows) (hj : j < G.n_cols) (hi2 : i + 2 ≤ INT_MAX) :
    nbrs_at (padded G heap) (i + 1) (j + 1)
      = spec_nbrs_toroidal G.Mv G.n_rows G.n_cols i j := by
  have hr : 1 ≤ G.n_rows := by omega
  have hc : 1 ≤ G.n_cols := by omega
  have e1 := padded_toroidal G heap ht hr hc (i + 1 - 1) (j + 1 - 1)
    ((i : Int) + (-1)) ((j : Int) + (-1)) (by omega) (by omega) (by omega) (by omega) (by omega)
  have e2 := padded_toroidal G heap ht hr hc (i + 1 - 1) (j + 1)
    ((i : Int) + (-1)) ((j : Int) + 0) (by omega) (by omega) (by omega) (by omega) (by omega)
  have e3 := padded_toroidal G heap ht hr hc (i + 1 - 1) (j + 1 + 1)
    ((i : Int) + (-1)) ((j : Int) + 1) (by omega) (by omega) (by omega) (by omega) (by omega)
  have e4 := padded_toroidal G heap ht hr hc (i + 1) (j + 1 - 1)
    ((i : Int) + 0) ((j : Int) + (-1)) (by omega) (by omega) (by omega) (by omega) (by omega)
  have e5 := padded_toroidal G heap ht hr hc (i + 1) (j + 1 + 1)
    ((i : Int) + 0) ((j : Int) + 1) (by omega) (by omega) (by omega) (by omega) (by omega)
  have e6 := padded_toroidal G heap ht hr hc (i + 1 + 1) (j + 1 - 1)
    ((i : Int) + 1) ((j : Int) + (-1)) (by omega) (by omega) (by omega) (by omega) (by omega)
  have e7 := padded_toroidal G heap ht hr hc (i + 1 + 1) (j + 1)
    ((i : Int) + 1) ((j : Int) + 0) (by omega) (by omega) (by omega) (by omega) (by omega)
  have e8 := padded_toroidal G heap ht hr hc (i + 1 + 1) (j + 1 + 1)
    ((i : Int) + 1) ((j : Int) + 1) (by omega) (by omega) (by omega) (by omega) (by omega)
  unfold nbrs_at spec_nbrs_toroidal offsets
  rw [e1, e2, e3, e4, e5, e6, e7, e8]
  simp only [List.map_cons, List.map_nil, List.sum_cons, List.sum_nil]
  omega

theorem test_life_iff (current : Bool) (nbrs : Nat) :
    test_life current nbrs = true ↔ (nbrs = 3 ∨ (current = true ∧ nbrs = 2)) := by
  simp [test_life]

/-! ## The returned counter -/

/-- On a board whose rows the `int` counter of the copy loop reaches, the value returned
by `game_update` is the start value of `count` plus the number of changed cells,
reduced to `size_t` and then to `int`. -/
theorem game_update_returns (G : game_state) (heap : Grid) (count0 : Nat)
    (hsz : G.n_rows ≤ INT_MAX) :
    (game_update G heap count0).2
      = to_int ((count0 + changed_cells G.Mv (game_update G heap count0).1.Mv
          G.n_rows G.n_cols) % SIZE_WIDTH) := by
  have hpos : 0 < SIZE_WIDTH := by unfold SIZE_WIDTH; positivity
  have hsum : changed_cells G.Mv (game_update G heap count0).1.Mv G.n_rows G.n_cols
      = ((List.range G.n_rows).map (fun k => ((List.range G.n_cols).map (fun l =>
          (next_cell (padded G heap) (k + 1) (l + 1)
            != padded G heap (k + 1) (l + 1)).toNat)).sum)).sum := by
    unfold changed_cells
    congr 1
    apply List.map_congr_left
    intro i hi
    congr 1
    apply List.map_congr_left
    intro j hj
    rw [List.mem_range] at hi hj
    rw [game_update_cell G heap count0 i j hi hj,
      padded_interior G heap i j hi hj (by omega)]
  rw [hsum]
  unfold game_update
  simp only [fill_eq]
  rw [loopN_count_all G.n_rows G.n_cols (fun k l =>
      (next_cell (padded G heap) (k + 1) (l + 1) != padded G heap (k + 1) (l + 1)).toNat)
      (count0 % SIZE_WIDTH) (Nat.mod_lt _ hpos), Nat.mod_add_mod]

/-! ## Dead neighbourhoods -/

theorem alive_inside_eq_false (M : Grid) (rows cols : Nat) (y x : Int)
    (h : ∀ i j, i < rows → j < cols → (i : Int) = y → (j : Int) = x → M i j = false) :
    alive_inside M rows cols y x = false := by
  unfold alive_inside
  by_cases hin : 0 ≤ y ∧ y < (rows : Int) ∧ 0 ≤ x ∧ x < (cols : Int)
  · rw [h y.toNat x.toNat (by omega) (by omega) (by omega) (by omega), Bool.and_false]
  · rw [decide_eq_false hin, Bool.false_and]

theorem spec_nbrs_walled_zero (M : Grid) (rows cols i j : Nat)
    (h : ∀ d ∈ offsets, alive_inside M rows cols ((i : Int) + d.1) ((j : Int) + d.2) = false) :
    spec_nbrs_walled M rows cols i j = 0 := by
  unfold spec_nbrs_walled
  apply List.sum_eq_zero
  intro n hn
  rw [List.mem_map] at hn
  obtain ⟨d, hd, rfl⟩ := hn
  rw [h d hd]
  rfl

theorem wrap_step (x c : Nat) (t : Int) (hx : x < c) (hc : c ≤ 2 ^ 63)
    (ht : t = -1 ∨ t = 1) :
    ((x + c) % SIZE_WIDTH + to_size_t t) % SIZE_WIDTH % c
      = (((x : Int) + t) % (c : Int)).toNat := by
  have hm1 : to_size_t (-1) = 2 ^ 64 - 1 := by decide
  have hp1 : to_size_t 1 = 1 := by decide
  rcases ht with rfl | rfl
  · have e : ((x + c) % SIZE_WIDTH + to_size_t (-1)) % SIZE_WIDTH = x + c - 1 := by
      rw [hm1]; unfold SIZE_WIDTH; omega
    rw [e]
    by_cases h0 : x = 0
    · subst h0
      rw [Nat.zero_add, Nat.mod_eq_of_lt (by omega), ← Int.add_emod_self,
        Int.emod_eq_of_lt (by omega) (by omega)]
      omega
    · have e2 : x + c - 1 = (x - 1) + c := by omega
      rw [e2, Nat.add_mod_right, Nat.mod_eq_of_lt (by omega),
        Int.emod_eq_of_lt (by omega) (by omega)]
      omega
  · have hcast : ((x : Int) + 1) % (c : Int) = (((x + 1) % c : Nat) : Int) := by
      rw [Int.natCast_mod]; rfl
    rw [hcast, Int.toNat_ofNat, hp1]
    by_cases hfull : x + c + 1 = 2 ^ 64
    · have e : ((x + c) % SIZE_WIDTH + 1) % SIZE_WIDTH = 0 := by
        unfold SIZE_WIDTH; omega
      have e2 : x + 1 = c := by omega
      rw [e, e2, Nat.mod_self, Nat.zero_mod]
    · have e : ((x + c) % SIZE_WIDTH + 1) % SIZE_WIDTH = (x + 1) + c := by
        unfold SIZE_WIDTH; omega
      rw [e, Nat.add_mod_right]

theorem move_cursor_x (G : game_state) (t : Int) (ht : t ≠ 0) :
    (move_cursor G t 0).xpos
        = ((G.xpos + G.n_cols) % SIZE_WIDTH + to_size_t t) % SIZE_WIDTH % G.n_cols
      ∧ (move_cursor G t 0).ypos = G.ypos := by
  simp [move_cursor, ht]

theorem move_cursor_y (G : game_state) (t : Int) (ht : t ≠ 0) :
    (move_cursor G 0 t).ypos
        = ((G.ypos + G.n_rows) % SIZE_WIDTH + to_size_t t) % SIZE_WIDTH % G.n_rows
      ∧ (move_cursor G 0 t).xpos = G.xpos := by
  simp [move_cursor, ht]

/-! ## The update rate -/

theorem move_cursor_rate (G : game_state) (t0 t1 : Int) :
    (move_cursor G t0 t1).update_rate = G.update_rate := by
  unfold move_cursor
  split_ifs <;> rfl

/-- Handling one key keeps the update rate between 1 and 128. -/
theorem input_key_rate (G : game_state) (c : Int)
    (h : 1 ≤ G.update_rate ∧ G.update_rate ≤ 128) :
    1 ≤ (input_key G c).1.update_rate ∧ (input_key G c).1.update_rate ≤ 128 := by
  unfold input_key
  split_ifs <;> simp only [move_cursor_rate, life_spawn] <;>
    first
    | omega
    | (split_ifs <;> simp only [] <;> omega)

theorem input_thread_rate (keys : List (Int × Bool)) (G : game_state)
    (h : 1 ≤ G.update_rate ∧ G.update_rate ≤ 128) :
    1 ≤ (input_thread G keys).update_rate ∧ (input_thread G keys).update_rate ≤ 128 := by
  induction keys generalizing G with
  | nil => exact h
  | cons e rest ih =>
    obtain ⟨c, eof⟩ := e
    have hk := input_key_rate G c h
    unfold input_thread
    simp only
    split_ifs
    · exact hk
    · exact hk
    · exact ih _ hk

/-! ## The update with `count` started at 0 -/

theorem loopN_write_false_hit (n : Nat) (fi fj : Nat → Nat) (M : Grid) (a b : Nat)
    (h : ∃ k, k < n ∧ fi k = a ∧ fj k = b) :
    loopN n (fun k A => A.write (fi k) (fj k) false) M a b = false := by
  induction n with
  | zero =>
    obtain ⟨k, hk, _⟩ := h
    omega
  | succ n ih =>
    rw [loopN_succ, write_apply]
    by_cases hn : a = fi n ∧ b = fj n
    · rw [if_pos hn]
    · rw [if_neg hn]
      obtain ⟨k, hk, hi, hj⟩ := h
      have hkn : k ≠ n := by
        rintro rfl
        exact hn ⟨hi.symm, hj.symm⟩
      exact ih ⟨k, by omega, hi, hj⟩

/-- After `memset(M[0], 0, rows * cols)` every cell of the board is dead. -/
theorem memset_inside (M : Grid) (rows cols a b : Nat) (ha : a < rows) (hb : b < cols) :
    memset M cols (rows * cols) a b = false := by
  apply loopN_write_false_hit
  refine ⟨b + a * cols, ?_, ?_, ?_⟩
  · calc b + a * cols < cols + a * cols := by omega
      _ = (a + 1) * cols := by ring
      _ ≤ rows * cols := Nat.mul_le_mul_right cols ha
  · rw [Nat.add_mul_div_right _ _ (by omega), Nat.div_eq_of_lt hb, Nat.zero_add]
  · rw [Nat.add_mul_mod_self_right, Nat.mod_eq_of_lt hb]

/-- The board of `init_game` is all dead, whatever the heap held. -/
theorem init_game_dead (rows cols maxiters : Nat) (toroidal : Bool) (heap : Grid)
    (a b : Nat) (ha : a < rows) (hb : b < cols) :
    (init_game rows cols maxiters toroidal heap).Mv a b = false :=
  memset_inside _ rows cols a b ha hb

/-- Both topologies at once: the new cell is `test_life` of the old cell and the
neighbour count of the specification. -/
theorem game_update_cell_spec (G : game_state) (heap : Grid) (count0 i j : Nat)
    (hi : i < G.n_rows) (hj : j < G.n_cols)
    (hsz : G.n_rows + 2 ≤ INT_MAX) (hcz : G.toroidal = false → G.n_cols + 1 ≤ INT_MAX) :
    (game_update G heap count0).1.Mv i j = test_life (G.Mv i j) (spec_nbrs G i j) := by
  rw [game_update_cell G heap count0 i j hi hj, next_cell,
    padded_interior G heap i j hi hj (by omega)]
  unfold spec_nbrs
  cases ht : G.toroidal
  · have := hcz ht
    rw [nbrs_at_walled G heap ht i j hi hj (by omega) (by omega)]; rfl
  · rw [nbrs_at_toroidal G heap ht i j hi hj (by omega)]; rfl

theorem wrap_lt (n : Nat) (y : Int) (hn : 0 < n) : (y % (n : Int)).toNat < n := by
  have h1 := Int.emod_nonneg y (show (n : Int) ≠ 0 by omega)
  have h2 := Int.emod_lt_of_pos y (show (0 : Int) < n by omega)
  omega

/-- The neighbour count reads only cells of the board. -/
theorem spec_nbrs_congr (G H : game_state) (i j : Nat)
    (hr : H.n_rows = G.n_rows) (hc : H.n_cols = G.n_cols) (ht : H.toroidal = G.toroidal)
    (hi : i < G.n_rows) (hj : j < G.n_cols)
    (hM : ∀ a b, a < G.n_rows → b < G.n_cols → H.Mv a b = G.Mv a b) :
    spec_nbrs H i j = spec_nbrs G i j := by
  unfold spec_nbrs spec_nbrs_toroidal spec_nbrs_walled
  rw [hr, hc, ht]
  cases G.toroidal
  · simp only [Bool.false_eq_true, if_false]
    congr 1
    apply List.map_congr_left
    intro d _
    congr 1
    unfold alive_inside
    by_cases hin : 0 ≤ (i : Int) + d.1 ∧ (i : Int) + d.1 < (G.n_rows : Int)
        ∧ 0 ≤ (j : Int) + d.2 ∧ (j : Int) + d.2 < (G.n_cols : Int)
    · rw [hM _ _ (by omega) (by omega)]
    · rw [decide_eq_false hin, Bool.false_and, Bool.false_and]
  · simp only [if_true]
    congr 1
    apply List.map_congr_left
    intro d _
    rw [hM _ _ (wrap_lt _ _ (by omega)) (wrap_lt _ _ (by omega))]

theorem spec_nbrs_dead (G : game_state) (i j : Nat) (hi : i < G.n_rows) (hj : j < G.n_cols)
    (hM : ∀ a b, a < G.n_rows → b < G.n_cols → G.Mv a b = false) :
    spec_nbrs G i j = 0 := by
  unfold spec_nbrs spec_nbrs_toroidal
  cases G.toroidal
  · simp only [Bool.false_eq_true, if_false]
    apply spec_nbrs_walled_zero
    intro d _
    apply alive_inside_eq_false
    intro a b ha hb _ _
    exact hM a b ha hb
  · simp only [if_true]
    apply List.sum_eq_zero
    intro n hn
    rw [List.mem_map] at hn
    obtain ⟨d, _, rfl⟩ := hn
    rw [hM _ _ (wrap_lt _ _ (by omega)) (wrap_lt _ _ (by omega))]
    rfl

theorem changed_cells_zero_iff (A B : Grid) (rows cols : Nat) :
    changed_cells A B rows cols = 0 ↔ ∀ i j, i < rows → j < cols → B i j = A i j := by
  unfold changed_cells
  rw [List.sum_eq_zero_iff]
  constructor
  · intro h i j hi hj
    have h1 := h _ (List.mem_map.mpr ⟨i, List.mem_range.mpr hi, rfl⟩)
    rw [List.sum_eq_zero_iff] at h1
    have h2 := h1 _ (List.mem_map.mpr ⟨j, List.mem_range.mpr hj, rfl⟩)
    revert h2
    cases B i j <;> cases A i j <;> simp
  · intro h n hn
    rw [List.mem_map] at hn
    obtain ⟨i, hi, rfl⟩ := hn
    rw [List.sum_eq_zero_iff]
    intro m hm
    rw [List.mem_map] at hm
    obtain ⟨j, hj, rfl⟩ := hm
    rw [h i j (List.mem_range.mp hi) (List.mem_range.mp hj)]
    simp

theorem row_changes_le (A B : Grid) (i cols : Nat) :
    ((List.range cols).map (fun j => (B i j != A i j).toNat)).sum ≤ cols := by
  induction cols with
  | zero => simp
  | succ n ih =>
    rw [List.range_succ, List.map_append, List.sum_append]
    have : (B i n != A i n).toNat ≤ 1 := Bool.toNat_le _
    simp only [List.map_cons, List.map_nil, List.sum_cons, List.sum_nil]
    omega

theorem changed_cells_le (A B : Grid) (rows cols : Nat) :
    changed_cells A B rows cols ≤ rows * cols := by
  unfold changed_cells
  induction rows with
  | zero => simp
  | succ n ih =>
    rw [List.range_succ, List.map_append, List.sum_append]
    have := row_changes_le A B n cols
    simp only [List.map_cons, List.map_nil, List.sum_cons, List.sum_nil]
    have e : (n + 1) * cols = n * cols + cols := by ring
    omega

theorem to_int_small (n : Nat) (h : n < 2 ^ 31) : to_int (n % SIZE_WIDTH) = (n : Int) := by
  unfold to_int SIZE_WIDTH
  rw [if_pos (by omega)]
  omega

/-- With `count` started at 0, at most `INT_MAX` rows and fewer than `2 ^ 31` cells, the
returned value is the number of changed cells. -/
theorem game_update_returns_from_zero (G : game_state) (heap : Grid)
    (hsz : G.n_rows ≤ INT_MAX) (hsmall : G.n_rows * G.n_cols < 2 ^ 31) :
    (game_update G heap 0).2
      = (changed_cells G.Mv (game_update G heap 0).1.Mv G.n_rows G.n_cols : Int) := by
  have hle := changed_cells_le G.Mv (game_update G heap 0).1.Mv G.n_rows G.n_cols
  rw [game_update_returns G heap 0 hsz, Nat.zero_add, to_int_small _ (by omega)]

/-- All-dead boards within the reach of the `int` counters, both topologies: every cell
stays dead, no cell changes, and the returned value is the start value of `count`. -/
theorem game_update_all_dead (G : game_state) (heap : Grid) (count0 : Nat)
    (hsz : G.n_rows + 2 ≤ INT_MAX) (hcz : G.toroidal = false → G.n_cols + 1 ≤ INT_MAX)
    (hM : ∀ a b, a < G.n_rows → b < G.n_cols → G.Mv a b = false) :
    (∀ i j, i < G.n_rows → j < G.n_cols → (game_update G heap count0).1.Mv i j = false)
    ∧ changed_cells G.Mv (game_update G heap count0).1.Mv G.n_rows G.n_cols = 0
    ∧ (game_update G heap count0).2 = to_int (count0 % SIZE_WIDTH) := by
  have hcells : ∀ i j, i < G.n_rows → j < G.n_cols →
      (game_update G heap count0).1.Mv i j = false := by
    intro i j hi hj
    rw [game_update_cell_spec G heap count0 i j hi hj hsz hcz,
      spec_nbrs_dead G i j hi hj hM, hM i j hi hj]
    rfl
  have hch : changed_cells G.Mv (game_update G heap count0).1.Mv G.n_rows G.n_cols = 0 := by
    rw [changed_cells_zero_iff]
    intro i j hi hj
    rw [hcells i j hi hj, hM i j hi hj]
  refine ⟨hcells, hch, ?_⟩
  rw [game_update_returns G heap count0 (by omega), hch, Nat.add_zero]

theorem game_update_frame (G : game_state) (heap : Grid) (count0 : Nat) :
    (game_update G heap count0).1.n_rows = G.n_rows
    ∧ (game_update G heap count0).1.n_cols = G.n_cols
    ∧ (game_update G heap count0).1.toroidal = G.toroidal :=
  ⟨rfl, rfl, rfl⟩

/-- Steady state with `count` started at 0 in both calls, within the reach of the `int`
counters and with fewer than `2 ^ 31` cells: when the first call returns 0 the second
call returns 0 as well. -/
theorem game_update_steady_from_zero (G : game_state) (heap heap2 : Grid)
    (hsz : G.n_rows + 2 ≤ INT_MAX) (hcz : G.toroidal = false → G.n_cols + 1 ≤ INT_MAX)
    (hsmall : G.n_rows * G.n_cols < 2 ^ 31)
    (h0 : (game_update G heap 0).2 = 0) :
    (game_update (game_update G heap 0).1 heap2 0).2 = 0 := by
  have hsame : ∀ i j, i < G.n_rows → j < G.n_cols →
      (game_update G heap 0).1.Mv i j = G.Mv i j := by
    rw [game_update_returns_from_zero G heap (by omega) hsmall] at h0
    exact (changed_cells_zero_iff _ _ _ _).mp (by exact_mod_cast h0)
  obtain ⟨er, ec, et⟩ := game_update_frame G heap 0
  have hsmall2 : (game_update G heap 0).1.n_rows * (game_update G heap 0).1.n_cols < 2 ^ 31 := by
    rw [er, ec]; exact hsmall
  have hsz2 : (game_update G heap 0).1.n_rows ≤ INT_MAX := by
    rw [er]; omega
  rw [game_update_returns_from_zero _ heap2 hsz2 hsmall2]
  have : changed_cells (game_update G heap 0).1.Mv
      (game_update (game_update G heap 0).1 heap2 0).1.Mv
      (game_update G heap 0).1.n_rows (game_update G heap 0).1.n_cols = 0 := by
    rw [changed_cells_zero_iff]
    intro i j hi hj
    rw [er] at hi
    rw [ec] at hj
    rw [game_update_cell_spec _ heap2 0 i j (by rw [er]; exact hi) (by rw [ec]; exact hj)
        (by rw [er]; exact hsz) (by rw [et, ec]; exact hcz),
      spec_nbrs_congr G _ i j er ec et hi hj hsame, hsame i j hi hj,
      ← game_update_cell_spec G heap 0 i j hi hj hsz hcz, hsame i j hi hj]
  rw [this]
  rfl

/-! ## The opposite corner -/

/-- C1 (walled step), evaluated.  On a walled board whose sizes the `int` counters of
lines 65, 138, 142 and 149 reach (`rows + 2` and `cols + 1` at most `INT_MAX`), after
`game_update` the cell `(i, j)` is alive exactly when `n = 3`, or the cell was alive
before the call and `n = 2`, where `n` is the number of cells alive before the call among
the neighbour positions inside the board; this `n` is the sum that `game_update` reads
from the padded copy.  On the 5 × 5 walled board the horizontal blinker
`(1,0), (1,1), (1,2)` becomes the vertical blinker `(0,1), (1,1), (2,1)`.  On the
1 × `2 ^ 31` walled board whose only live cell is `(0, 2 ^ 31 - 2)` the loop of line 142
stops after `j = INT_MAX`, the pad cells `tempgrid[0][2 ^ 31]` and `tempgrid[2][2 ^ 31]`
keep what `malloc` left there, and with that memory non-zero the dead cell
`(0, 2 ^ 31 - 1)`, which has one live neighbour inside the board, sees three and becomes
alive; with that memory zero it stays dead. -/
theorem game_update_walled_int_counter :
    (∀ (G : game_state) (heap : Grid) (count0 i j : Nat),
      1 ≤ G.n_rows → 1 ≤ G.n_cols → G.toroidal = false →
      G.n_rows + 2 ≤ INT_MAX → G.n_cols + 1 ≤ INT_MAX →
      i < G.n_rows → j < G.n_cols →
      nbrs_at (padded G heap) (i + 1) (j + 1) = spec_nbrs_walled G.Mv G.n_rows G.n_cols i j
      ∧ ((game_update G heap count0).1.Mv i j = true ↔
        (spec_nbrs_walled G.Mv G.n_rows G.n_cols i j = 3 ∨
          (G.Mv i j = true ∧ spec_nbrs_walled G.Mv G.n_rows G.n_cols i j = 2))))
    ∧ (∀ i < 5, ∀ j < 5,
      (game_update (state_of 5 5 false (board_of [(1, 0), (1, 1), (1, 2)]))
        (fun _ _ => true) 0).1.Mv i j = board_of [(0, 1), (1, 1), (2, 1)] i j)
    ∧ board_of [(0, 2 ^ 31 - 2)] 0 (2 ^ 31 - 1) = false
    ∧ spec_nbrs_walled (board_of [(0, 2 ^ 31 - 2)]) 1 (2 ^ 31) 0 (2 ^ 31 - 1) = 1
    ∧ nbrs_at (padded (state_of 1 (2 ^ 31) false (board_of [(0, 2 ^ 31 - 2)]))
        (fun _ _ => true)) 1 (2 ^ 31) = 3
    ∧ (game_update (state_of 1 (2 ^ 31) false (board_of [(0, 2 ^ 31 - 2)]))
        (fun _ _ => true) 0).1.Mv 0 (2 ^ 31 - 1) = true
    ∧ (game_update (state_of 1 (2 ^ 31) false (board_of [(0, 2 ^ 31 - 2)]))
        (fun _ _ => false) 0).1.Mv 0 (2 ^ 31 - 1) = false := by
  refine ⟨?_, by decide, by decide, by decide, ?_, ?_, ?_⟩
  · intro G heap count0 i j _ _ hw hsz hcz hi hj
    refine ⟨nbrs_at_walled G heap hw i j hi hj (by omega) (by omega), ?_⟩
    rw [game_update_cell G heap count0 i j hi hj, next_cell, test_life_iff,
      nbrs_at_walled G heap hw i j hi hj (by omega) (by omega),
      padded_interior G heap i j hi hj (by omega)]
  · rw [nbrs_at_eq]
    iterate 8 rw [padded_read, pad_walled_apply]
    decide
  · rw [game_update_cell _ _ _ 0 (2 ^ 31 - 1) (by decide) (by decide), next_cell,
      nbrs_at_eq]
    iterate 9 rw [padded_read, pad_walled_apply]
    decide
  · rw [game_update_cell _ _ _ 0 (2 ^ 31 - 1) (by decide) (by decide), next_cell,
      nbrs_at_eq]
    iterate 9 rw [padded_read, pad_walled_apply]
    decide

/-- The general part of C1 applied to the blinker on the 5 × 5 walled board at the cell
`(0, 1)`: the sum read from the padded copy is the walled count, and the cell becomes
alive because that count is 3. -/
theorem game_update_walled_blinker :
    (state_of 5 5 false (board_of [(1, 0), (1, 1), (1, 2)])).n_rows + 2 ≤ INT_MAX
    ∧ (state_of 5 5 false (board_of [(1, 0), (1, 1), (1, 2)])).n_cols + 1 ≤ INT_MAX
    ∧ nbrs_at (padded (state_of 5 5 false (board_of [(1, 0), (1, 1), (1, 2)]))
        (fun _ _ => true)) (0 + 1) (1 + 1)
        = spec_nbrs_walled (board_of [(1, 0), (1, 1), (1, 2)]) 5 5 0 1
    ∧ ((game_update (state_of 5 5 false (board_of [(1, 0), (1, 1), (1, 2)]))
        (fun _ _ => true) 0).1.Mv 0 1 = true ↔
      (spec_nbrs_walled (board_of [(1, 0), (1, 1), (1, 2)]) 5 5 0 1 = 3 ∨
        (board_of [(1, 0), (1, 1), (1, 2)] 0 1 = true ∧
          spec_nbrs_walled (board_of [(1, 0), (1, 1), (1, 2)]) 5 5 0 1 = 2))) :=
  ⟨by decide, by decide,
   game_update_walled_int_counter.1
     (state_of 5 5 false (board_of [(1, 0), (1, 1), (1, 2)])) (fun _ _ => true) 0 0 1
     (by decide) (by decide) rfl (by decide) (by decide) (by decide) (by decide)⟩

/-- C2 (toroidal step), evaluated.  On a toroidal board with at least one row and one
column whose row count the `int` counters of lines 65, 126 and 149 reach (`rows + 2` at
most `INT_MAX`), the padded-copy computation of `game_update` agrees with the
wrap-around definition: after the call the cell `(i, j)` is alive exactly when `n = 3`,
or it was alive before and `n = 2`, where `n` is the sum over the eight offsets of the
state before the call of the cell `((i + di) mod rows, (j + dj) mod cols)`, counted with
multiplicity.  On the 4 × 4 torus with `(0,0), (0,3), (3,0)` alive the dead cell
`(3, 3)` sees three live cells across both seams and becomes alive; on the 1 × 3 torus
with `(0,0), (0,1)` alive the dead cell `(0, 2)` counts six and stays dead.  On the
all-dead `(2 ^ 31 - 1)` × 1 torus `create_matrix` sets the row pointers 0 to
`2 ^ 31 - 1` of the `2 ^ 31 + 1` rows of `tempgrid`, so the bottom pad row
`tempgrid[2 ^ 31]` that lines 123, 133, 135 write and the fill loop reads has no row
pointer; with that row read as non-zero memory the dead cell `(2 ^ 31 - 2, 0)`, which
has no live neighbour, sees three and becomes alive. -/
theorem game_update_toroidal_int_counter :
    (∀ (G : game_state) (heap : Grid) (count0 i j : Nat),
      1 ≤ G.n_rows → 1 ≤ G.n_cols → G.toroidal = true →
      G.n_rows + 2 ≤ INT_MAX →
      i < G.n_rows → j < G.n_cols →
      nbrs_at (padded G heap) (i + 1) (j + 1)
        = spec_nbrs_toroidal G.Mv G.n_rows G.n_cols i j
      ∧ ((game_update G heap count0).1.Mv i j = true ↔
        (spec_nbrs_toroidal G.Mv G.n_rows G.n_cols i j = 3 ∨
          (G.Mv i j = true ∧ spec_nbrs_toroidal G.Mv G.n_rows G.n_cols i j = 2))))
    ∧ (board_of [(0, 0), (0, 3), (3, 0)] 3 3 = false
      ∧ spec_nbrs_toroidal (board_of [(0, 0), (0, 3), (3, 0)]) 4 4 3 3 = 3
      ∧ (game_update (state_of 4 4 true (board_of [(0, 0), (0, 3), (3, 0)]))
          (fun _ _ => true) 0).1.Mv 3 3 = true
      ∧ ∀ i < 4, ∀ j < 4,
        (game_update (state_of 4 4 true (board_of [(0, 0), (0, 3), (3, 0)]))
          (fun _ _ => true) 0).1.Mv i j
          = test_life (board_of [(0, 0), (0, 3), (3, 0)] i j)
              (spec_nbrs_toroidal (board_of [(0, 0), (0, 3), (3, 0)]) 4 4 i j))
    ∧ (spec_nbrs_toroidal (board_of [(0, 0), (0, 1)]) 1 3 0 2 = 6
      ∧ nbrs_at (padded (state_of 1 3 true (board_of [(0, 0), (0, 1)]))
          (fun _ _ => true)) 1 3 = 6
      ∧ (game_update (state_of 1 3 true (board_of [(0, 0), (0, 1)]))
          (fun _ _ => true) 0).1.Mv 0 2 = false)
    ∧ (create_matrix ((state_of (2 ^ 31 - 1) 1 true (board_of [])).n_rows + 2)
          ((state_of (2 ^ 31 - 1) 1 true (board_of [])).n_cols + 2) (fun _ _ => true)).2
        = 2 ^ 31
    ∧ (state_of (2 ^ 31 - 1) 1 true (board_of [])).n_rows + 1 = 2 ^ 31
    ∧ game_update_defined (state_of (2 ^ 31 - 1) 1 true (board_of [])) = false
    ∧ spec_nbrs_toroidal (board_of []) (2 ^ 31 - 1) 1 (2 ^ 31 - 2) 0 = 0
    ∧ nbrs_at (padded (state_of (2 ^ 31 - 1) 1 true (board_of [])) (fun _ _ => true))
        (2 ^ 31 - 1) 1 = 3
    ∧ (game_update (state_of (2 ^ 31 - 1) 1 true (board_of [])) (fun _ _ => true) 0).1.Mv
        (2 ^ 31 - 2) 0 = true := by
  refine ⟨?_, by decide, by decide, ?_, by decide, by decide, by decide, ?_, ?_⟩
  · intro G heap count0 i j _ _ ht hsz hi hj
    refine ⟨nbrs_at_toroidal G heap ht i j hi hj (by omega), ?_⟩
    rw [game_update_cell G heap count0 i j hi hj, next_cell, test_life_iff,
      nbrs_at_toroidal G heap ht i j hi hj (by omega),
      padded_interior G heap i j hi hj (by omega)]
  · rw [create_matrix_ptrs]
    decide
  · rw [nbrs_at_eq]
    iterate 8 rw [padded_read, pad_toroidal_apply]
    decide
  · rw [game_update_cell _ _ _ (2 ^ 31 - 2) 0 (by decide) (by decide), next_cell,
      nbrs_at_eq]
    iterate 9 rw [padded_read, pad_toroidal_apply]
    decide

/-- The general part of C2 applied to the 1 × 3 torus with `(0,0)` and `(0,1)` alive at
the cell `(0, 2)`, where every cell is counted more than once: the sum read from the
padded copy is the wrap-around sum, here 6. -/
theorem game_update_toroidal_thin :
    (state_of 1 3 true (board_of [(0, 0), (0, 1)])).n_rows + 2 ≤ INT_MAX
    ∧ spec_nbrs_toroidal (board_of [(0, 0), (0, 1)]) 1 3 0 2 = 6
    ∧ nbrs_at (padded (state_of 1 3 true (board_of [(0, 0), (0, 1)])) (fun _ _ => true))
        (0 + 1) (2 + 1)
        = spec_nbrs_toroidal (board_of [(0, 0), (0, 1)]) 1 3 0 2
    ∧ ((game_update (state_of 1 3 true (board_of [(0, 0), (0, 1)]))
        (fun _ _ => true) 0).1.Mv 0 2 = true ↔
      (spec_nbrs_toroidal (board_of [(0, 0), (0, 1)]) 1 3 0 2 = 3 ∨
        (board_of [(0, 0), (0, 1)] 0 2 = true ∧
          spec_nbrs_toroidal (board_of [(0, 0), (0, 1)]) 1 3 0 2 = 2))) :=
  ⟨by decide, by decide,
   game_update_toroidal_int_counter.1
     (state_of 1 3 true (board_of [(0, 0), (0, 1)])) (fun _ _ => true) 0 0 2
     (by decide) (by decide) rfl (by decide) (by decide) (by decide)⟩

/-- C3 (rule of `test_life`).  For every neighbour count, in particular for 0 to 8:
a live cell stays alive exactly with 2 or 3 neighbours (it dies with 0, 1 and with
4 to 8), a dead cell becomes alive exactly with 3; `test_life` is the B3/S23 rule. -/
theorem test_life_b3s23 (nbrs : Nat) :
    (test_life true nbrs = true ↔ (nbrs = 2 ∨ nbrs = 3))
    ∧ (test_life false nbrs = true ↔ nbrs = 3)
    ∧ (nbrs ≤ 1 → test_life true nbrs = false)
    ∧ (4 ≤ nbrs → test_life true nbrs = false)
    ∧ (∀ current, test_life current nbrs = spec_b3s23 current nbrs) := by
  refine ⟨?_, ?_, ?_, ?_, ?_⟩
  · rw [test_life_iff]; simp; omega
  · rw [test_life_iff]; simp
  · intro h
    rw [Bool.eq_false_iff, Ne, test_life_iff]; omega
  · intro h
    rw [Bool.eq_false_iff, Ne, test_life_iff]; omega
  · intro current
    rw [Bool.eq_iff_iff, test_life_iff]
    cases current <;> simp [spec_b3s23]
    omega

/-- C4 (changed count), evaluated.  The local `count` of `game_update` has no
initialiser, so for every board of at most `INT_MAX` rows the returned value is the
number of changed cells plus whatever `count` held on entry (reduced to `size_t`, then
to `int`).  On the 3 × 3
walled board with only `(1, 1)` alive the step gives the all-dead board and one cell
changes; with `count` holding 0 on entry the call returns 1, with `count` holding 7 it
returns 8. -/
theorem game_update_count_start :
    (∀ (G : game_state) (heap : Grid) (count0 : Nat), G.n_rows ≤ INT_MAX →
      (game_update G heap count0).2
        = to_int ((count0 + changed_cells G.Mv (game_update G heap count0).1.Mv
            G.n_rows G.n_cols) % SIZE_WIDTH))
    ∧ (∀ i < 3, ∀ j < 3,
      (game_update (state_of 3 3 false (board_of [(1, 1)])) (fun _ _ => true) 7).1.Mv i j
        = false)
    ∧ changed_cells (board_of [(1, 1)])
        (game_update (state_of 3 3 false (board_of [(1, 1)])) (fun _ _ => true) 7).1.Mv 3 3 = 1
    ∧ (game_update (state_of 3 3 false (board_of [(1, 1)])) (fun _ _ => true) 0).2 = 1
    ∧ (game_update (state_of 3 3 false (board_of [(1, 1)])) (fun _ _ => true) 7).2 = 8 :=
  ⟨game_update_returns, by decide, by decide, by decide, by decide⟩

/-- C5 (all-dead board), evaluated.  On the all-dead board of `init_game`, for every
size that the `int` loop counters reach and both topologies, `game_update` leaves every
cell dead and returns the value that `count` held on entry.  On the 3 × 3 board with `count` holding 7 on entry it
returns 7, not 0. -/
theorem game_update_all_dead_start :
    (∀ (rows cols maxiters : Nat) (toroidal : Bool) (heap heap2 : Grid) (count0 : Nat),
      rows + 2 ≤ INT_MAX → (toroidal = false → cols + 1 ≤ INT_MAX) →
      (∀ i j, i < rows → j < cols →
        (game_update (init_game rows cols maxiters toroidal heap) heap2 count0).1.Mv i j
          = false)
      ∧ (game_update (init_game rows cols maxiters toroidal heap) heap2 count0).2
          = to_int (count0 % SIZE_WIDTH))
    ∧ (game_update (init_game 3 3 250 false (fun _ _ => true)) (fun _ _ => true) 7).2 = 7
    ∧ (game_update (init_game 3 3 250 true (fun _ _ => true)) (fun _ _ => true) 7).2 = 7 := by
  refine ⟨?_, by decide, by decide⟩
  intro rows cols maxiters toroidal heap heap2 count0 hsz hcz
  have h := game_update_all_dead (init_game rows cols maxiters toroidal heap) heap2 count0
    hsz hcz (fun a b ha hb => init_game_dead rows cols maxiters toroidal heap a b ha hb)
  exact ⟨h.1, h.2.2⟩

/-- C6 (steady state), evaluated.  On the all-dead 2 × 2 board a first call with
`count` holding 0 on entry returns 0; a second call on the resulting state with
`count` holding 5 on entry returns 5, although no cell changes. -/
theorem game_update_steady_start :
    (game_update (init_game 2 2 250 false (fun _ _ => true)) (fun _ _ => true) 0).2 = 0
    ∧ (game_update
        (game_update (init_game 2 2 250 false (fun _ _ => true)) (fun _ _ => true) 0).1
        (fun _ _ => true) 5).2 = 5
    ∧ changed_cells
        (game_update (init_game 2 2 250 false (fun _ _ => true)) (fun _ _ => true) 0).1.Mv
        (game_update
          (game_update (init_game 2 2 250 false (fun _ _ => true)) (fun _ _ => true) 0).1
          (fun _ _ => true) 5).1.Mv 2 2 = 0 := by
  decide

/-- C8 as stated fails when the `size_t` sum wraps: with `2 ^ 64 - 1` columns, moving
right from column 0 computes `(0 + (2 ^ 64 - 1) + 1) mod 2 ^ 64 = 0` and stays on
column 0, while `(0 + 1) mod cols` is 1. -/
theorem move_cursor_sum_wraps :
    1 ≤ (state_of 1 (2 ^ 64 - 1) true (board_of [])).n_rows
    ∧ 1 ≤ (state_of 1 (2 ^ 64 - 1) true (board_of [])).n_cols
    ∧ (state_of 1 (2 ^ 64 - 1) true (board_of [])).n_cols < SIZE_WIDTH
    ∧ (state_of 1 (2 ^ 64 - 1) true (board_of [])).xpos
        < (state_of 1 (2 ^ 64 - 1) true (board_of [])).n_cols
    ∧ (state_of 1 (2 ^ 64 - 1) true (board_of [])).ypos
        < (state_of 1 (2 ^ 64 - 1) true (board_of [])).n_rows
    ∧ (move_cursor (state_of 1 (2 ^ 64 - 1) true (board_of [])) 1 0).xpos = 0
    ∧ ((((state_of 1 (2 ^ 64 - 1) true (board_of [])).xpos : Int) + 1)
        % ((state_of 1 (2 ^ 64 - 1) true (board_of [])).n_cols : Int)).toNat = 1
    ∧ (move_cursor (state_of 1 (2 ^ 64 - 1) true (board_of [])) 1 0).xpos
        ≠ ((((state_of 1 (2 ^ 64 - 1) true (board_of [])).xpos : Int) + 1)
            % ((state_of 1 (2 ^ 64 - 1) true (board_of [])).n_cols : Int)).toNat := by
  decide

/-- C8, amended.  For a board with `1 ≤ rows ≤ 2 ^ 63` and `1 ≤ cols ≤ 2 ^ 63`, a cursor
with `xpos < cols` and `ypos < rows`, either value of the toroidal flag and `t` in
`{-1, +1}`: `move_cursor` with offset `(t, 0)` sets `xpos` to `(xpos + t) mod cols`,
computed over the integers, and leaves `ypos` unchanged; with offset `(0, t)` it sets
`ypos` to `(ypos + t) mod rows` and leaves `xpos` unchanged.  Moving left from column 0
lands on column `cols - 1`, moving up from row 0 lands on row `rows - 1`. -/
theorem move_cursor_wraps (G : game_state) (t : Int) (ht : t = -1 ∨ t = 1)
    (hr : 1 ≤ G.n_rows) (hr2 : G.n_rows ≤ 2 ^ 63)
    (hc : 1 ≤ G.n_cols) (hc2 : G.n_cols ≤ 2 ^ 63)
    (hx : G.xpos < G.n_cols) (hy : G.ypos < G.n_rows) :
    (move_cursor G t 0).xpos = (((G.xpos : Int) + t) % (G.n_cols : Int)).toNat
    ∧ (move_cursor G t 0).ypos = G.ypos
    ∧ (move_cursor G 0 t).ypos = (((G.ypos : Int) + t) % (G.n_rows : Int)).toNat
    ∧ (move_cursor G 0 t).xpos = G.xpos
    ∧ (G.xpos = 0 → (move_cursor G (-1) 0).xpos = G.n_cols - 1)
    ∧ (G.ypos = 0 → (move_cursor G 0 (-1)).ypos = G.n_rows - 1) := by
  have ht0 : t ≠ 0 := by omega
  have hm : (-1 : Int) ≠ 0 := by omega
  refine ⟨?_, (move_cursor_x G t ht0).2, ?_, (move_cursor_y G t ht0).2, ?_, ?_⟩
  · rw [(move_cursor_x G t ht0).1, wrap_step _ _ t hx hc2 ht]
  · rw [(move_cursor_y G t ht0).1, wrap_step _ _ t hy hr2 ht]
  · intro h0
    rw [(move_cursor_x G (-1) hm).1, wrap_step _ _ (-1) hx hc2 (Or.inl rfl), h0,
      ← Int.add_emod_self, Int.emod_eq_of_lt (by omega) (by omega)]
    omega
  · intro h0
    rw [(move_cursor_y G (-1) hm).1, wrap_step _ _ (-1) hy hr2 (Or.inl rfl), h0,
      ← Int.add_emod_self, Int.emod_eq_of_lt (by omega) (by omega)]
    omega

/-- An instance of the amended C8 on the default 15 × 50 board: from `(0, 0)` a move
left lands on column 49 and a move up lands on row 14. -/
theorem move_cursor_wraps_default :
    (move_cursor (state_of 15 50 true (board_of [])) (-1) 0).xpos = 49
    ∧ (move_cursor (state_of 15 50 true (board_of [])) 0 (-1)).ypos = 14
    ∧ (move_cursor (state_of 15 50 true (board_of [])) (-1) 0).xpos
        = ((((state_of 15 50 true (board_of [])).xpos : Int) + (-1))
            % ((state_of 15 50 true (board_of [])).n_cols : Int)).toNat :=
  ⟨by decide, by decide,
   (move_cursor_wraps (state_of 15 50 true (board_of [])) (-1) (Or.inl rfl)
      (by decide) (by decide) (by decide) (by decide) (by decide) (by decide)).1⟩

/-- C9 (update-rate clamp).  After `init_game` and any finite sequence of key events
the update rate is between 1 and 128, in particular never 0; in such a state each of
the keys `e`, `E`, `+` adds 1 unless the rate is 128, and each of the keys `q`, `Q`,
`-` subtracts 1 unless the rate is 1. -/
theorem update_rate_clamped (rows cols maxiters : Nat) (toroidal : Bool) (heap : Grid)
    (keys : List (Int × Bool)) :
    1 ≤ (input_thread (init_game rows cols maxiters toroidal heap) keys).update_rate
    ∧ (input_thread (init_game rows cols maxiters toroidal heap) keys).update_rate ≤ 128
    ∧ (input_thread (init_game rows cols maxiters toroidal heap) keys).update_rate ≠ 0
    ∧ (∀ c ∈ [key 'e', key 'E', key '+'],
        (input_key (input_thread (init_game rows cols maxiters toroidal heap) keys) c).1.update_rate
          = if (input_thread (init_game rows cols maxiters toroidal heap) keys).update_rate = 128
            then 128
            else (input_thread (init_game rows cols maxiters toroidal heap) keys).update_rate + 1)
    ∧ (∀ c ∈ [key 'q', key 'Q', key '-'],
        (input_key (input_thread (init_game rows cols maxiters toroidal heap) keys) c).1.update_rate
          = if (input_thread (init_game rows cols maxiters toroidal heap) keys).update_rate = 1
            then 1
            else (input_thread (init_game rows cols maxiters toroidal heap) keys).update_rate - 1)
    := by
  have hinit : 1 ≤ (init_game rows cols maxiters toroidal heap).update_rate
      ∧ (init_game rows cols maxiters toroidal heap).update_rate ≤ 128 := by
    constructor <;> simp [init_game]
  have h := input_thread_rate keys _ hinit
  generalize input_thread (init_game rows cols maxiters toroidal heap) keys = G at h
  refine ⟨h.1, h.2, by omega, ?_, ?_⟩
  · intro c hc
    simp only [List.mem_cons, List.mem_singleton, List.not_mem_nil, or_false] at hc
    rcases hc with rfl | rfl | rfl <;> simp [input_key, key] <;> split_ifs <;>
      first | rfl | omega | (simp only []; omega)
  · intro c hc
    simp only [List.mem_cons, List.mem_singleton, List.not_mem_nil, or_false] at hc
    rcases hc with rfl | rfl | rfl <;> simp [input_key, key] <;> split_ifs <;>
      first | rfl | omega | (simp only []; omega)

/-- C10 (toggle and the edit counter), evaluated.  Handling one of the toggle keys
space, `f`, `F` flips the cell under the cursor and leaves `spawns` as it was: no
statement of `input_thread` or `life_spawn` writes `spawns`. -/
theorem toggle_keeps_spawns (G : game_state) :
    (input_key G (key ' ')).1.spawns = G.spawns
    ∧ (input_key G (key 'f')).1.spawns = G.spawns
    ∧ (input_key G (key 'F')).1.spawns = G.spawns
    ∧ (input_key G (key 'f')).1.Mv G.ypos G.xpos = !(G.Mv G.ypos G.xpos)
    ∧ (input_key (init_game 3 3 250 true (fun _ _ => true)) (key 'f')).1.spawns = 0 := by
  refine ⟨?_, ?_, ?_, ?_, ?_⟩ <;> simp [input_key, key, life_spawn, write_apply, init_game]

/-! ## The run phase: the compute loop -/

theorem size_width_pos : 1 < SIZE_WIDTH := by decide

theorem update_section_frame (G : game_state) (heap : Grid) (count0 : Nat) :
    (update_section G heap count0).1.maxiters = G.maxiters
    ∧ (update_section G heap count0).1.drawn = G.drawn
    ∧ (update_section G heap count0).1.updates = (G.updates + 1) % SIZE_WIDTH := by
  unfold update_section
  simp only []
  split_ifs <;> exact ⟨rfl, rfl, rfl⟩

theorem update_section_finished (G : game_state) (heap : Grid) (count0 : Nat) :
    (update_section G heap count0).1.finished = true ↔
      (G.finished = true ∨ (G.updates + 1) % SIZE_WIDTH ≥ G.maxiters
        ∨ (update_section G heap count0).2 = 0) := by
  unfold update_section
  simp only []
  split_ifs with h
  · constructor
    · intro _
      exact Or.inr h
    · intro _
      rfl
  · constructor
    · intro hf
      exact Or.inl hf
    · intro hf
      rcases hf with hf | hf
      · exact hf
      · exact absurd hf h

theorem update_section_defined (G : game_state) (heap : Grid) (count0 : Nat) :
    game_update_defined (update_section G heap count0).1 = game_update_defined G := by
  unfold update_section
  simp only []
  split_ifs <;> rfl

theorem render_caught_up_defined (G : game_state) :
    game_update_defined (render_caught_up G) = game_update_defined G := by
  unfold render_caught_up
  split_ifs <;> rfl

theorem draw_section_frame (G : game_state) :
    (draw_section G).maxiters = G.maxiters
    ∧ (draw_section G).updates = G.updates
    ∧ (draw_section G).finished = G.finished
    ∧ (draw_section G).drawn = (G.drawn + 1) % SIZE_WIDTH :=
  ⟨rfl, rfl, rfl, rfl⟩

/-- The sequential compute loop on a board where `game_update` is defined, from any
state in which the renderer has caught up: it ends within `max N 1 - updates` passes,
in a finished state, and `updates` stays at most `max N 1`. -/
theorem game_update_thread_runs (env : Nat → Grid × Nat) (N : Nat) (hN : N < SIZE_WIDTH) :
    ∀ (fuel k : Nat) (G : game_state) (changed : Nat),
      game_update_defined G = true →
      G.maxiters = N → G.drawn = G.updates → G.updates ≤ max N 1 →
      (G.finished = false → G.updates < N ∨ G.updates = 0) →
      (changed = 0 → G.finished = true) →
      max N 1 - G.updates ≤ fuel →
      ∃ trace Gf, game_update_thread env fuel k G changed = some trace
        ∧ trace.getLast? = some Gf ∧ Gf.finished = true
        ∧ ∀ G1 ∈ trace, G1.updates ≤ max N 1 := by
  intro fuel
  induction fuel with
  | zero =>
    intro k G changed hdef hm hd hu hlt hch hfuel
    have hfin : G.finished = true := by
      cases hf : G.finished
      · have := hlt hf
        omega
      · rfl
    refine ⟨[G], G, ?_, rfl, hfin, ?_⟩
    · unfold game_update_thread
      rw [if_pos (Or.inl hfin)]
    · intro G1 h1
      rw [List.mem_singleton] at h1
      rw [h1]
      exact hu
  | succ fuel ih =>
    intro k G changed hdef hm hd hu hlt hch hfuel
    by_cases hend : G.finished = true ∨ changed = 0
    · have hfin : G.finished = true := by
        rcases hend with h | h
        · exact h
        · exact hch h
      refine ⟨[G], G, ?_, rfl, hfin, ?_⟩
      · unfold game_update_thread
        rw [if_pos hend]
      · intro G1 h1
        rw [List.mem_singleton] at h1
        rw [h1]
        exact hu
    · have hnf : G.finished = false := by
        cases hf : G.finished
        · rfl
        · exact absurd (Or.inl hf) hend
      have hw : update_waits G = false := by
        unfold update_waits
        rw [hd]
        simp
      obtain ⟨fm, fd, fu⟩ := update_section_frame G (env k).1 (env k).2
      have hstep : (G.updates + 1) % SIZE_WIDTH = G.updates + 1 := by
        apply Nat.mod_eq_of_lt
        have := size_width_pos
        have := hlt hnf
        omega
      rw [hstep] at fu
      have hfin := update_section_finished G (env k).1 (env k).2
      rw [hstep, hm] at hfin
      have hdw : draw_waits (update_section G (env k).1 (env k).2).1 = false := by
        unfold draw_waits
        rw [fd, fu, hd]
        simp
      have hr : render_caught_up (update_section G (env k).1 (env k).2).1
          = draw_section (update_section G (env k).1 (env k).2).1 := by
        unfold render_caught_up
        rw [hdw]
        rfl
      obtain ⟨dm, du, df, dd⟩ := draw_section_frame (update_section G (env k).1 (env k).2).1
      have hlt0 := hlt hnf
      obtain ⟨trace, Gf, ht, hl, hff, hall⟩ := ih (k + 1)
        (render_caught_up (update_section G (env k).1 (env k).2).1)
        (update_section G (env k).1 (env k).2).2
        (by rw [render_caught_up_defined, update_section_defined, hdef])
        (by rw [hr, dm, fm, hm])
        (by rw [hr, dd, du, fd, fu, hd, hstep])
        (by rw [hr, du, fu]; omega)
        (by
          rw [hr, df, du, fu]
          intro hf2
          have : ¬ (G.updates + 1 ≥ N) := by
            intro hge
            have := hfin.mpr (Or.inr (Or.inl hge))
            rw [hf2] at this
            exact Bool.noConfusion this
          omega)
        (by
          rw [hr, df]
          intro h0
          exact hfin.mpr (Or.inr (Or.inr h0)))
        (by rw [hr, du, fu]; omega)
      refine ⟨G :: trace, Gf, ?_, ?_, hff, ?_⟩
      · rw [game_update_thread, if_neg hend, hw, hdef]
        simp only [Bool.false_eq_true, Bool.true_eq_false, if_false]
        rw [ht]
        rfl
      · rw [List.getLast?_cons, hl]
        rfl
      · intro G1 h1
        rw [List.mem_cons] at h1
        rcases h1 with h1 | h1
        · rw [h1]
          exact hu
        · exact hall G1 h1

/-- The sequential compute loop with the cap at 0, on a board where `game_update` is
defined and from the start state: it makes exactly one pass, so the loop test is
evaluated twice, the second time in a finished state with `updates = 1`. -/
theorem game_update_thread_zero (env : Nat → Grid × Nat) (fuel : Nat) (G : game_state)
    (hdef : game_update_defined G = true) (hm : G.maxiters = 0) (h0 : G.updates = 0)
    (hd : G.drawn = 0) (hf : G.finished = false) :
    ∃ Gf, game_update_thread env (fuel + 1) 0 G 1 = some [G, Gf]
      ∧ Gf.finished = true ∧ Gf.updates = 1 := by
  have hw : update_waits G = false := by
    unfold update_waits
    rw [hd, h0]
    simp
  obtain ⟨fm, fd, fu⟩ := update_section_frame G (env 0).1 (env 0).2
  have hfin : (update_section G (env 0).1 (env 0).2).1.finished = true := by
    rw [update_section_finished, hm]
    exact Or.inr (Or.inl (Nat.zero_le _))
  have hdw : draw_waits (update_section G (env 0).1 (env 0).2).1 = false := by
    unfold draw_waits
    rw [hfin]
    rfl
  have hr : render_caught_up (update_section G (env 0).1 (env 0).2).1
      = draw_section (update_section G (env 0).1 (env 0).2).1 := by
    unfold render_caught_up
    rw [hdw]
    rfl
  obtain ⟨dm, du, df, dd⟩ := draw_section_frame (update_section G (env 0).1 (env 0).2).1
  have hfin2 : (render_caught_up (update_section G (env 0).1 (env 0).2).1).finished
      = true := by
    rw [hr, df, hfin]
  have hinner : game_update_thread env fuel (0 + 1)
      (render_caught_up (update_section G (env 0).1 (env 0).2).1)
      (update_section G (env 0).1 (env 0).2).2
      = some [render_caught_up (update_section G (env 0).1 (env 0).2).1] := by
    cases fuel with
    | zero => rw [game_update_thread, if_pos (Or.inl hfin2)]
    | succ n => rw [game_update_thread, if_pos (Or.inl hfin2)]
  refine ⟨render_caught_up (update_section G (env 0).1 (env 0).2).1, ?_, hfin2, ?_⟩
  · rw [game_update_thread, if_neg (by rw [hf]; simp), hw, hdef]
    simp only [Bool.false_eq_true, Bool.true_eq_false, if_false]
    rw [hinner]
    rfl
  · rw [hr, du, fu, h0]
    rfl

/-! ## The setup renderer -/

theorem move_cursor_spawns (G : game_state) (t0 t1 : Int) :
    (move_cursor G t0 t1).spawns = G.spawns := by
  unfold move_cursor
  split_ifs <;> rfl

theorem input_key_spawns (G : game_state) (c : Int) :
    (input_key G c).1.spawns = G.spawns := by
  unfold input_key
  split_ifs <;> simp only [move_cursor_spawns, life_spawn] <;>
    first
    | rfl
    | (split_ifs <;> rfl)

theorem input_thread_spawns (keys : List (Int × Bool)) (G : game_state) :
    (input_thread G keys).spawns = G.spawns := by
  induction keys generalizing G with
  | nil => rfl
  | cons e rest ih =>
    obtain ⟨c, eof⟩ := e
    have hk := input_key_spawns G c
    unfold input_thread
    simp only
    split_ifs
    · exact hk
    · exact hk
    · rw [ih, hk]

/-- The value of the wait condition of `draw_input_thread`: the two assignments make
it test the shared update rate and the shared spawn count against 0. -/
theorem draw_input_waits_value (G : game_state) (L : draw_locals) :
    (draw_input_waits G L).1
      = (!G.inp_over && L.xpos == G.xpos && L.ypos == G.ypos
          && G.update_rate != 0 && G.spawns != 0) := by
  unfold draw_input_waits
  simp only []
  by_cases h5 : G.spawns = 0 <;> split_ifs <;> simp_all

/-! ## The run phase: the interleaved threads -/

theorem run_step_inv (N : Nat) (hN : N < SIZE_WIDTH) (s s1 : run_state) (a : run_action)
    (hinv : run_inv N s) (hstep : run_step s a = some s1) :
    run_inv N s1 ∧ s.G.updates ≤ s1.G.updates ∧ s.G.drawn ≤ s1.G.drawn := by
  obtain ⟨im, i1, i2, i3, i4, i5, i6⟩ := hinv
  cases a with
  | upd_enter =>
    unfold run_step at hstep
    simp only at hstep
    split_ifs at hstep with hpc hc
    · have e := Option.some.inj hstep
      subst e
      refine ⟨⟨im, i1, i2, i3, ?_, i5, i6⟩, Nat.le_refl _, Nat.le_refl _⟩
      intro _
      show s.G.finished = false
      cases hf : s.G.finished
      · rfl
      · rw [hf] at hc
        exact absurd hc (by simp)
    · have e := Option.some.inj hstep
      subst e
      refine ⟨⟨im, i1, i2, i3, ?_, i5, i6⟩, Nat.le_refl _, Nat.le_refl _⟩
      intro h
      exact thread_pc.noConfusion h
  | upd_critical heap count0 =>
    unfold run_step at hstep
    simp only at hstep
    split_ifs at hstep with hg
    have e := Option.some.inj hstep
    subst e
    obtain ⟨hpc, hw⟩ := hg
    have hnf := i4 hpc
    have heq : s.G.updates = s.G.drawn := by
      unfold update_waits at hw
      rw [hnf] at hw
      simpa using hw
    obtain ⟨fm, fd, fu⟩ := update_section_frame s.G heap count0
    have hlt := i6 hnf
    have hmod : (s.G.updates + 1) % SIZE_WIDTH = s.G.updates + 1 := by
      apply Nat.mod_eq_of_lt
      have := size_width_pos
      omega
    rw [hmod] at fu
    have hfin := update_section_finished s.G heap count0
    rw [hmod, im] at hfin
    refine ⟨⟨?_, ?_, ?_, ?_, ?_, ?_, ?_⟩, ?_, ?_⟩
    · show (update_section s.G heap count0).1.maxiters = N
      rw [fm, im]
    · show (update_section s.G heap count0).1.drawn ≤ (update_section s.G heap count0).1.updates
      rw [fd, fu]; omega
    · show (update_section s.G heap count0).1.updates
        ≤ (update_section s.G heap count0).1.drawn + 1
      rw [fd, fu]; omega
    · show (update_section s.G heap count0).1.updates ≤ max N 1
      rw [fu]; omega
    · intro h
      exact thread_pc.noConfusion h
    · intro _ _
      show (update_section s.G heap count0).1.drawn < (update_section s.G heap count0).1.updates
      rw [fd, fu]; omega
    · show (update_section s.G heap count0).1.finished = false →
        (update_section s.G heap count0).1.updates < N
          ∨ (update_section s.G heap count0).1.updates = 0
      intro hf2
      rw [fu]
      have : ¬ (s.G.updates + 1 ≥ N) := by
        intro hge
        have := hfin.mpr (Or.inr (Or.inl hge))
        rw [hf2] at this
        exact Bool.noConfusion this
      omega
    · show s.G.updates ≤ (update_section s.G heap count0).1.updates
      rw [fu]; omega
    · show s.G.drawn ≤ (update_section s.G heap count0).1.drawn
      rw [fd]
  | draw_enter =>
    unfold run_step at hstep
    simp only at hstep
    split_ifs at hstep with hpc hc
    · have e := Option.some.inj hstep
      subst e
      refine ⟨⟨im, i1, i2, i3, i4, ?_, i6⟩, Nat.le_refl _, Nat.le_refl _⟩
      intro _ hf
      have hf2 : s.G.finished = true := hf
      rw [hf2] at hc
      exact absurd hc (by simp)
    · have e := Option.some.inj hstep
      subst e
      refine ⟨⟨im, i1, i2, i3, i4, ?_, i6⟩, Nat.le_refl _, Nat.le_refl _⟩
      intro h
      exact thread_pc.noConfusion h
  | draw_critical =>
    unfold run_step at hstep
    simp only at hstep
    split_ifs at hstep with hg
    have e := Option.some.inj hstep
    subst e
    obtain ⟨hpc, hw⟩ := hg
    have hlt : s.G.drawn < s.G.updates := by
      cases hf : s.G.finished
      · unfold draw_waits at hw
        rw [hf] at hw
        simpa using hw
      · exact i5 hpc hf
    have hmod : (s.G.drawn + 1) % SIZE_WIDTH = s.G.drawn + 1 := by
      apply Nat.mod_eq_of_lt
      have := size_width_pos
      omega
    refine ⟨⟨im, ?_, ?_, i3, i4, ?_, i6⟩, Nat.le_refl _, ?_⟩
    · show (s.G.drawn + 1) % SIZE_WIDTH ≤ s.G.updates
      rw [hmod]; omega
    · show s.G.updates ≤ (s.G.drawn + 1) % SIZE_WIDTH + 1
      rw [hmod]; omega
    · intro h
      exact thread_pc.noConfusion h
    · show s.G.drawn ≤ (s.G.drawn + 1) % SIZE_WIDTH
      rw [hmod]; omega

theorem run_steps_inv (N : Nat) (hN : N < SIZE_WIDTH) (acts : List run_action) :
    ∀ (s s1 : run_state), run_inv N s → run_steps s acts = some s1 → run_inv N s1 := by
  induction acts with
  | nil =>
    intro s s1 hinv hrun
    have e : s = s1 := Option.some.inj hrun
    rw [← e]
    exact hinv
  | cons a rest ih =>
    intro s s1 hinv hrun
    unfold run_steps at hrun
    cases hst : run_step s a with
    | none =>
      rw [hst] at hrun
      exact Option.noConfusion hrun
    | some s2 =>
      rw [hst] at hrun
      exact ih s2 s1 (run_step_inv N hN s s2 a hinv hst).1 hrun

theorem run_start_inv (G : game_state) (h0 : G.updates = 0) (hd : G.drawn = 0)
    (hf : G.finished = false) : run_inv G.maxiters (run_start G) := by
  refine ⟨rfl, ?_, ?_, ?_, ?_, ?_, ?_⟩
  · show G.drawn ≤ G.updates
    omega
  · show G.updates ≤ G.drawn + 1
    omega
  · show G.updates ≤ max G.maxiters 1
    omega
  · intro h
    exact thread_pc.noConfusion h
  · intro h
    exact thread_pc.noConfusion h
  · intro _
    exact Or.inr h0

theorem run_steps_mono (N : Nat) (hN : N < SIZE_WIDTH) (acts : List run_action) :
    ∀ (s s1 : run_state), run_inv N s → run_steps s acts = some s1 →
      s.G.updates ≤ s1.G.updates ∧ s.G.drawn ≤ s1.G.drawn := by
  induction acts with
  | nil =>
    intro s s1 _ hrun
    have e : s = s1 := Option.some.inj hrun
    rw [← e]
    exact ⟨Nat.le_refl _, Nat.le_refl _⟩
  | cons a rest ih =>
    intro s s1 hinv hrun
    unfold run_steps at hrun
    cases hst : run_step s a with
    | none =>
      rw [hst] at hrun
      exact Option.noConfusion hrun
    | some s2 =>
      rw [hst] at hrun
      obtain ⟨hinv2, hu, hd⟩ := run_step_inv N hN s s2 a hinv hst
      obtain ⟨hu2, hd2⟩ := ih s2 s1 hinv2 hrun
      exact ⟨Nat.le_trans hu hu2, Nat.le_trans hd hd2⟩

/-! ## The claims of the two threads -/

/-- C11 (iteration cap), evaluated.  On every board where `game_update` is defined, for
every cap `N` (a `size_t` value) and either topology, the compute loop of
`game_update_thread`, run sequentially with the renderer catching up and started with
`updates = 0`, `drawn = 0` and `finished = false`, ends within `max N 1` passes with
`finished` true; `updates` never exceeds `max N 1`, so it never exceeds `N` when
`N ≥ 1`; when `N = 0` the loop makes exactly one pass and ends with `updates = 1`,
because the cap is tested only after `game_update` and `updates++`.  With the cap at 3
the blinker on the 5 × 5 walled board passes the loop test with `updates` at 0, 1, 2
and 3.  With the cap at 0 the same blinker is still advanced by one generation: the
cell `(0, 1)` is born, the cell `(1, 0)` dies, and the loop ends with `updates = 1`. -/
theorem game_update_thread_cap_zero :
    (∀ (G : game_state) (env : Nat → Grid × Nat) (fuel : Nat),
      game_update_defined G = true →
      G.updates = 0 → G.drawn = 0 → G.finished = false →
      G.maxiters < SIZE_WIDTH → max G.maxiters 1 ≤ fuel →
      ∃ trace Gf, game_update_thread env fuel 0 G 1 = some trace
        ∧ trace.getLast? = some Gf ∧ Gf.finished = true
        ∧ (∀ G1 ∈ trace, G1.updates ≤ max G.maxiters 1)
        ∧ (1 ≤ G.maxiters → ∀ G1 ∈ trace, G1.updates ≤ G.maxiters)
        ∧ (G.maxiters = 0 → trace.length = 2 ∧ Gf.updates = 1))
    ∧ (game_update_thread (fun _ => (fun _ _ => true, 0)) 3 0
        { state_of 5 5 false (board_of [(1, 0), (1, 1), (1, 2)]) with maxiters := 3 } 1).map
          (fun t => t.map (fun G => (G.updates, G.finished)))
        = some [(0, false), (1, false), (2, false), (3, true)]
    ∧ game_update_defined
        { state_of 5 5 false (board_of [(1, 0), (1, 1), (1, 2)]) with maxiters := 0 } = true
    ∧ (game_update_thread (fun _ => (fun _ _ => true, 0)) 1 0
        { state_of 5 5 false (board_of [(1, 0), (1, 1), (1, 2)]) with maxiters := 0 } 1).map
          (fun t => t.map (fun G => (G.updates, G.finished, G.Mv 0 1, G.Mv 1 0)))
        = some [(0, false, false, true), (1, true, true, false)]
    ∧ (game_update_thread (fun _ => (fun _ _ => true, 0)) 1 0
        (init_game 2 2 0 true (fun _ _ => true)) 1).map
          (fun t => t.map (fun G => (G.updates, G.finished)))
        = some [(0, false), (1, true)] := by
  refine ⟨?_, by decide, by decide, by decide, by decide⟩
  intro G env fuel hdef h0 hd hf hN hfuel
  obtain ⟨trace, Gf, ht, hl, hff, hall⟩ :=
    game_update_thread_runs env G.maxiters hN fuel 0 G 1 hdef
      rfl (by omega) (by omega) (fun _ => Or.inr h0) (fun h => absurd h (by omega))
      (by omega)
  refine ⟨trace, Gf, ht, hl, hff, hall, ?_, ?_⟩
  · intro h1 G1 hG1
    have := hall G1 hG1
    omega
  · intro hz
    obtain ⟨f, rfl⟩ : ∃ f, fuel = f + 1 := ⟨fuel - 1, by omega⟩
    obtain ⟨Gz, hz1, _, hz3⟩ := game_update_thread_zero env f G hdef hz h0 hd hf
    rw [hz1] at ht
    have ht2 : trace = [G, Gz] := (Option.some.inj ht).symm
    rw [ht2] at hl
    have hl2 : Gf = Gz := (Option.some.inj hl).symm
    rw [ht2, hl2]
    exact ⟨rfl, hz3⟩

/-- The general part of C11 applied to the blinker on the 5 × 5 walled board with the
cap at 3: the loop ends finished and `updates` never exceeds 3. -/
theorem game_update_thread_cap_blinker :
    game_update_defined
        { state_of 5 5 false (board_of [(1, 0), (1, 1), (1, 2)]) with maxiters := 3 } = true
    ∧ ∃ trace Gf,
        game_update_thread (fun _ => (fun _ _ => true, 0)) 3 0
          { state_of 5 5 false (board_of [(1, 0), (1, 1), (1, 2)]) with maxiters := 3 } 1
          = some trace
        ∧ trace.getLast? = some Gf ∧ Gf.finished = true
        ∧ (∀ G1 ∈ trace, G1.updates ≤ max 3 1)
        ∧ (1 ≤ 3 → ∀ G1 ∈ trace, G1.updates ≤ 3)
        ∧ (3 = 0 → trace.length = 2 ∧ Gf.updates = 1) :=
  ⟨by decide,
   game_update_thread_cap_zero.1
     { state_of 5 5 false (board_of [(1, 0), (1, 1), (1, 2)]) with maxiters := 3 }
     (fun _ => (fun _ _ => true, 0)) 3 (by decide) rfl rfl rfl (by decide) (by decide)⟩

/-- C12 (wait predicate of the setup renderer), evaluated.  The last two operands of
the wait condition of `draw_input_thread` are assignments, so the condition tests the
shared update rate and spawn count against 0 instead of comparing them with the locals.
As `spawns` is 0 in every state that the setup phase reaches, the condition is false
there and the renderer never waits.  In the state of `init_game` with the renderer's
cursor, update rate and spawn count equal to the shared ones, the condition as the
comments word it is true and the condition of the code is false. -/
theorem draw_input_never_waits :
    (∀ (G : game_state) (L : draw_locals),
      (draw_input_waits G L).1
        = (!G.inp_over && L.xpos == G.xpos && L.ypos == G.ypos
            && G.update_rate != 0 && G.spawns != 0))
    ∧ (∀ (rows cols maxiters : Nat) (toroidal : Bool) (heap : Grid)
        (keys : List (Int × Bool)) (L : draw_locals),
      (draw_input_waits (input_thread (init_game rows cols maxiters toroidal heap) keys) L).1
        = false)
    ∧ (init_game 3 3 250 true (fun _ _ => true)).inp_over = false
    ∧ spec_draw_input_waits (init_game 3 3 250 true (fun _ _ => true))
        { xpos := 0, ypos := 0, spawns := 0, update_rate := 10, toroidal := true } = true
    ∧ (draw_input_waits (init_game 3 3 250 true (fun _ _ => true))
        { xpos := 0, ypos := 0, spawns := 0, update_rate := 10, toroidal := true }).1
        = false := by
  refine ⟨draw_input_waits_value, ?_, by decide, by decide, by decide⟩
  intro rows cols maxiters toroidal heap keys L
  rw [draw_input_waits_value, input_thread_spawns]
  have : (init_game rows cols maxiters toroidal heap).spawns = 0 := rfl
  rw [this]
  simp

/-- C13 (run-phase counters).  In the transition system of the two threads of the run
phase, started with `updates = 0`, `drawn = 0`, `finished = false` and a cap that is a
`size_t` value, every state `s` reached by an interleaving satisfies
`drawn ≤ updates ≤ drawn + 1`, and in every continuation of the run neither counter
decreases. -/
theorem run_counters_one_tick (G : game_state)
    (h0 : G.updates = 0) (hd : G.drawn = 0) (hf : G.finished = false)
    (hN : G.maxiters < SIZE_WIDTH)
    (acts more : List run_action) (s s1 : run_state)
    (hrun : run_steps (run_start G) acts = some s)
    (hmore : run_steps s more = some s1) :
    s.G.drawn ≤ s.G.updates ∧ s.G.updates ≤ s.G.drawn + 1
    ∧ s.G.updates ≤ s1.G.updates ∧ s.G.drawn ≤ s1.G.drawn := by
  have hinv := run_steps_inv G.maxiters hN acts (run_start G) s (run_start_inv G h0 hd hf) hrun
  have hmono := run_steps_mono G.maxiters hN more s s1 hinv hmore
  exact ⟨hinv.2.1, hinv.2.2.1, hmono.1, hmono.2⟩

/-- An instance of C13 on the 5 × 5 walled blinker: after both loop tests and the first
critical section of the compute thread the counters are `updates = 1`, `drawn = 0`;
the critical section of the renderer then gives `updates = 1`, `drawn = 1`. -/
theorem run_counters_one_tick_blinker :
    ∃ s s1,
      run_steps (run_start (state_of 5 5 false (board_of [(1, 0), (1, 1), (1, 2)])))
        [run_action.upd_enter, run_action.draw_enter,
          run_action.upd_critical (fun _ _ => true) 0] = some s
      ∧ run_steps s [run_action.draw_critical] = some s1
      ∧ (s.G.updates, s.G.drawn, s.G.finished) = (1, 0, false)
      ∧ (s1.G.updates, s1.G.drawn, s1.G.finished) = (1, 1, false)
      ∧ s.G.drawn ≤ s.G.updates ∧ s.G.updates ≤ s.G.drawn + 1
      ∧ s.G.updates ≤ s1.G.updates ∧ s.G.drawn ≤ s1.G.drawn := by
  have h1 : (run_steps (run_start (state_of 5 5 false (board_of [(1, 0), (1, 1), (1, 2)])))
      [run_action.upd_enter, run_action.draw_enter,
        run_action.upd_critical (fun _ _ => true) 0]).isSome = true := by decide
  have h2 : (run_steps
      ((run_steps (run_start (state_of 5 5 false (board_of [(1, 0), (1, 1), (1, 2)])))
        [run_action.upd_enter, run_action.draw_enter,
          run_action.upd_critical (fun _ _ => true) 0]).get h1)
      [run_action.draw_critical]).isSome = true := by rfl
  exact ⟨_, _, (Option.some_get h1).symm, (Option.some_get h2).symm, by rfl, by rfl,
    run_counters_one_tick (state_of 5 5 false (board_of [(1, 0), (1, 1), (1, 2)]))
      rfl rfl rfl (by decide) _ _ _ _ (Option.some_get h1).symm (Option.some_get h2).symm⟩

end Life
